import Mathlib

/-!
Verification of the endpoint codec in `pywhy_graphs/array/export.py`.

The file embeds the two conversion routines (`_graph_to_clearn_arr`,
`clearn_arr_to_graph`) and the wrapper `graph_to_arr` as executable Lean
functions over an explicit mixed-edge-graph data model, and proves the
claimed properties about them.
-/

set_option maxHeartbeats 1000000

namespace PywhyGraphs

/-- Modelled from the spec: the recognized edge-type label for directed edges
(the value of `EdgeType.DIRECTED` in the package configuration, which is not
part of the sources under verification). -/
abbrev directedName : String := "directed"

/-- Modelled from the spec: the recognized edge-type label for bidirected edges. -/
abbrev bidirectedName : String := "bidirected"

/-- Modelled from the spec: the recognized edge-type label for undirected edges. -/
abbrev undirectedName : String := "undirected"

/-- Modelled from the spec: the recognized edge-type label for circle-marked edges. -/
abbrev circleName : String := "circle"

/-- Modelled from the spec: the causal-learn endpoint codes (`CLearnEndpoint`
in the package configuration, which is not part of the sources under
verification): none, tail, arrow, circle, and the three compound codes. -/
inductive CLearnEndpoint where
  | null
  | tail
  | arrow
  | circle
  | tailAndArrow
  | arrowAndArrow
  | tailAndTail
deriving DecidableEq, Repr

/-- Modelled from the spec: the integer value of each endpoint code.  The spec
fixes only that the codes are distinct integers and that the "none" code is
zero (the matrix is zero-initialised); the concrete nonzero values are chosen
arbitrarily. -/
def CLearnEndpoint.value : CLearnEndpoint → Int
  | .null => 0
  | .tail => -1
  | .arrow => 1
  | .circle => 2
  | .tailAndArrow => 3
  | .arrowAndArrow => 4
  | .tailAndTail => 5

/-- Partial inverse of `CLearnEndpoint.value`; `none` models the `ValueError`
raised by the Python enum constructor on an unrecognized integer. -/
def ofValue (x : Int) : Option CLearnEndpoint :=
  if x = 0 then some .null
  else if x = -1 then some .tail
  else if x = 1 then some .arrow
  else if x = 2 then some .circle
  else if x = 3 then some .tailAndArrow
  else if x = 4 then some .arrowAndArrow
  else if x = 5 then some .tailAndTail
  else none

/-- Edge lists: ordered pairs of nodes (nodes are natural numbers). -/
abbrev Edges := List (Nat × Nat)

/-- Modelled from the spec: a mixed-edge graph (`nx.MixedEdgeGraph`, not part
of the sources under verification).  It has a node list and named sub-graphs;
each sub-graph carries a flag saying whether it is directed (`nx.DiGraph`,
where `has_edge (u, v)` checks only the ordered pair) or undirected
(`nx.Graph`, where `has_edge (u, v)` checks both orders). -/
structure MixedGraph where
  nodes : List Nat
  graphs : List (String × Bool × Edges)
deriving DecidableEq, Repr

/-- Modelled from the spec: the per-edge-type presence check
`G.has_edge (u, v, t)` of the mixed-edge graph. -/
def hasEdgeB (G : MixedGraph) (u v : Nat) (t : String) : Bool :=
  match G.graphs.find? (fun g => g.1 == t) with
  | some g => decide ((u, v) ∈ g.2.2) || (!g.2.1 && decide ((v, u) ∈ g.2.2))
  | none => false

/-- Modelled from the spec: the neighbor query of the mixed-edge graph;
`neighborb G u v` holds when `v` is a neighbor of `u` in some sub-graph
(successors only for directed sub-graphs). -/
def neighborb (G : MixedGraph) (u v : Nat) : Bool :=
  G.graphs.any (fun g => decide ((u, v) ∈ g.2.2) || (!g.2.1 && decide ((v, u) ∈ g.2.2)))

/-- Modelled from the spec: `edge_types (G, u, v)` from
`pywhy_graphs.classes.functions` (not part of the sources under verification):
the labels of the sub-graphs holding an edge between `u` and `v` in either
direction. -/
def edgeTypesFn (G : MixedGraph) (u v : Nat) : List String :=
  (G.graphs.filter (fun g => decide ((u, v) ∈ g.2.2) || decide ((v, u) ∈ g.2.2))).map (fun g => g.1)

/-- Modelled from the spec: adding a node to the mixed-edge graph (no-op when
already present). -/
def addNode (G : MixedGraph) (x : Nat) : MixedGraph :=
  if x ∈ G.nodes then G else { G with nodes := G.nodes ++ [x] }

/-- Modelled from the spec: the edge insertion `G.add_edge (u, v, edge_type)`
of the mixed-edge graph: both endpoints become nodes and the ordered pair is
appended to the named sub-graph. -/
def addEdge (G : MixedGraph) (u v : Nat) (t : String) : MixedGraph :=
  let G' := addNode (addNode G u) v
  { G' with graphs := G'.graphs.map (fun g => if g.1 == t then (g.1, g.2.1, g.2.2 ++ [(u, v)]) else g) }

/-- A mixed-edge graph with the four standard sub-graphs (directed and circle
sub-graphs are directed, bidirected and undirected sub-graphs are
undirected), matching how the package classes register them. -/
def mkGraph (ns : List Nat) (d b un c : Edges) : MixedGraph :=
  ⟨ns, [(directedName, true, d), (bidirectedName, false, b),
        (undirectedName, false, un), (circleName, true, c)]⟩

/-- Translation of the per-pair endpoint computation of
`_graph_to_clearn_arr` (export.py lines 35-119).  Returns
`(endpoint_u, endpoint_v)`; `error` models the raised Python exceptions,
including the `NameError` from the unhandled two-type fall-through. -/
def endpointsFor (G : MixedGraph) (u v : Nat) : Except String (CLearnEndpoint × CLearnEndpoint) :=
  match edgeTypesFn G u v with
  | [et] =>
    if et == directedName then
      if hasEdgeB G u v directedName then .ok (.tail, .arrow)
      else .ok (.arrow, .tail)
    else if et == bidirectedName then .ok (.arrow, .arrow)
    else if et == undirectedName then .ok (.tail, .tail)
    else if et == circleName then .ok (.circle, .circle)
    else .error ("Unrecognizd edge type " ++ et ++ ".")
  | uvTypes =>
    if uvTypes.length == 2 then
      if uvTypes.contains directedName && uvTypes.contains bidirectedName then
        if hasEdgeB G u v directedName then .ok (.tailAndArrow, .arrowAndArrow)
        else .ok (.arrowAndArrow, .tailAndArrow)
      else if uvTypes.contains directedName && uvTypes.contains undirectedName then
        if hasEdgeB G u v directedName then .ok (.tailAndTail, .tailAndArrow)
        else .ok (.tailAndArrow, .tailAndTail)
      else if uvTypes.contains bidirectedName && uvTypes.contains undirectedName then
        .ok (.tailAndArrow, .tailAndArrow)
      else if uvTypes.contains circleName then
        if hasEdgeB G u v circleName then
          if hasEdgeB G v u directedName then .ok (.circle, .circle)
          else if hasEdgeB G v u undirectedName then .ok (.tail, .circle)
          else .error "It is not possible for a PAG to have this edge with another edge."
        else
          if hasEdgeB G u v directedName then .ok (.circle, .circle)
          else if hasEdgeB G u v undirectedName then .ok (.circle, .tail)
          else .error "It is not possible for a PAG to have this edge with another edge."
      else .error "NameError: endpoint_u referenced before assignment"
    else .error "Causal-learn does not support more than two types of edges between nodes."

/-- Dense integer matrix with an explicit shape, standing for the numpy array. -/
structure CArr where
  rows : Nat
  cols : Nat
  entry : Nat → Nat → Int

/-- Functional update of one matrix cell. -/
def CArr.set (a : CArr) (i j : Nat) (x : Int) : CArr :=
  { a with entry := fun i' j' => if i' = i ∧ j' = j then x else a.entry i' j' }

/-- Zero-initialised square matrix (`np.zeros`). -/
def CArr.zeros (n : Nat) : CArr := ⟨n, n, fun _ _ => 0⟩

/-- One iteration of the double loop of `_graph_to_clearn_arr` for the ordered
pair `p`: skip when the nodes coincide or are not adjacent, else write the two
endpoint values into the matrix (export.py lines 20-123). -/
def encodeStep (G : MixedGraph) (arrIdx : List Nat) (arr : CArr) (p : Nat × Nat) :
    Except String CArr :=
  if p.1 = p.2 then .ok arr
  else if !neighborb G p.1 p.2 then .ok arr
  else do
    let eps ← endpointsFor G p.1 p.2
    let udx := arrIdx.indexOf p.1
    let vdx := arrIdx.indexOf p.2
    .ok ((arr.set udx vdx eps.1.value).set vdx udx eps.2.value)

/-- All ordered pairs of nodes in iteration order (`for u in G.nodes: for v in G.nodes`). -/
def orderedPairs (ns : List Nat) : List (Nat × Nat) :=
  ns.flatMap (fun u => ns.map (fun v => (u, v)))

/-- Translation of `_graph_to_clearn_arr` (export.py lines 13-125). -/
def graphToClearnArr (G : MixedGraph) : Except String (CArr × List Nat) := do
  let arr ← (orderedPairs G.nodes).foldlM (encodeStep G G.nodes) (CArr.zeros G.nodes.length)
  .ok (arr, G.nodes)

/-- Translation of the per-pair edge emission of `clearn_arr_to_graph`
(export.py lines 184-264): given `endpoint_u` and `endpoint_v` for the pair
`(u, v)`, the list of `add_edge` calls performed, in order. -/
def decodePair (eu ev : CLearnEndpoint) (u v : Nat) : List (Nat × Nat × String) :=
  if eu ∈ [CLearnEndpoint.arrowAndArrow, CLearnEndpoint.tailAndArrow, CLearnEndpoint.tailAndTail]
      ∨ ev ∈ [CLearnEndpoint.arrowAndArrow, CLearnEndpoint.tailAndArrow, CLearnEndpoint.tailAndTail] then
    if ev = .arrowAndArrow ∧ eu = .tailAndArrow then
      [(u, v, directedName), (u, v, bidirectedName)]
    else if eu = .arrowAndArrow ∧ ev = .tailAndArrow then
      [(v, u, directedName), (u, v, bidirectedName)]
    else if eu = .tailAndTail ∧ ev = .tailAndArrow then
      [(u, v, directedName), (u, v, undirectedName)]
    else if ev = .tailAndTail ∧ eu = .tailAndArrow then
      [(v, u, directedName), (u, v, undirectedName)]
    else if ev = .tailAndArrow ∧ eu = .tailAndArrow then
      [(u, v, bidirectedName), (u, v, undirectedName)]
    else []
  else if ¬ (eu = .circle ∨ ev = .circle) then
    if ev = .arrow ∧ eu = .arrow then [(u, v, bidirectedName)]
    else if ev = .arrow ∧ eu = .tail then [(u, v, directedName)]
    else if eu = .arrow ∧ ev = .tail then [(v, u, directedName)]
    else if ev = .tail ∧ eu = .tail then [(u, v, undirectedName)]
    else []
  else
    (if eu = .circle then [(v, u, circleName)]
     else if eu = .arrow then [(v, u, directedName)]
     else if eu = .tail then [(v, u, undirectedName)]
     else []) ++
    (if ev = .circle then [(u, v, circleName)]
     else if ev = .arrow then [(u, v, directedName)]
     else if ev = .tail then [(u, v, undirectedName)]
     else [])

/-- Perform a list of edge insertions in order. -/
def insertAll (g : MixedGraph) (l : List (Nat × Nat × String)) : MixedGraph :=
  l.foldl (fun g e => addEdge g e.1 e.2.1 e.2.2) g

/-- Modelled from the spec: the empty variant graphs returned by the
constructors `ADMG()`, `CPDAG()`, `PAG()` (not part of the sources under
verification).  The spec does not restrict which edge names each variant
accepts, so every variant is modelled with the four standard sub-graphs. -/
def mkEmptyVariant : MixedGraph := mkGraph [] [] [] [] []

/-- The graph-type dispatch of `clearn_arr_to_graph` (export.py lines 166-178). -/
def emptyGraphFor (graphType : String) : Except String MixedGraph :=
  if graphType == "dag" then .ok mkEmptyVariant
  else if graphType == "admg" then .ok mkEmptyVariant
  else if graphType == "cpdag" then .ok mkEmptyVariant
  else if graphType == "pag" then .ok mkEmptyVariant
  else .error "The graph type is unrecognized. Please use one of dag, admg, cpdag, pag."

/-- Modelled from the spec: `to_directed()` (not part of the sources under
verification): convert the final mixed-edge result into a single-edge-type
directed graph, keeping nodes and the directed sub-graph. -/
def toDirected (G : MixedGraph) : MixedGraph :=
  ⟨G.nodes,
   [(directedName, true,
     match G.graphs.find? (fun g => g.1 == directedName) with
     | some g => g.2.2
     | none => [])]⟩

/-- Upper-triangle index pairs `np.triu_indices (n, k := 1)` in row-major order. -/
def triuPairs (n : Nat) : List (Nat × Nat) :=
  (List.range n).flatMap (fun i => ((List.range n).filter (fun j => i < j)).map (fun j => (i, j)))

/-- Endpoint code stored at cell `(i, j)`; the `getD` default is never reached
because decoding validates every entry first. -/
def entryEndpoint (arr : CArr) (i j : Nat) : CLearnEndpoint :=
  (ofValue (arr.entry i j)).getD .null

/-- Validation of all matrix entries (`np.unique` plus the endpoint-code
constructor on each distinct value; equivalent to checking every cell). -/
def entriesValid (arr : CArr) : Bool :=
  (List.range arr.rows).all (fun i =>
    (List.range arr.rows).all (fun j => (ofValue (arr.entry i j)).isSome))

/-- The edge insertions performed by the decoder for the index pair `p`. -/
def pairIns (arr : CArr) (arrIdx : List Nat) (p : Nat × Nat) : List (Nat × Nat × String) :=
  decodePair (entryEndpoint arr p.1 p.2) (entryEndpoint arr p.2 p.1)
    (arrIdx.getD p.1 0) (arrIdx.getD p.2 0)

/-- The edge-insertion loop of `clearn_arr_to_graph` (export.py lines 182-264). -/
def decodeFold (arr : CArr) (arrIdx : List Nat) (n : Nat) (g0 : MixedGraph) : MixedGraph :=
  (triuPairs n).foldl (fun g p => insertAll g (pairIns arr arrIdx p)) g0

/-- Whether the single inserted edge `e` makes the presence query for edge
type `t` between `u` and `v` answer true (the reversed orientation counts
only for the undirected sub-graph kinds). -/
def insHitsP (e : Nat × Nat × String) (u v : Nat) (t : String) : Prop :=
  e.2.2 = t ∧ ((u = e.1 ∧ v = e.2.1) ∨
    (¬(t = directedName ∨ t = circleName) ∧ u = e.2.1 ∧ v = e.1))

/-- Translation of `clearn_arr_to_graph` (export.py lines 128-268). -/
def clearnArrToGraph (arr : CArr) (arrIdx : List Nat) (graphType : String) :
    Except String MixedGraph :=
  if arr.rows ≠ arr.cols then
    .error "Only square arrays are convertible to pywhy-graphs."
  else if arrIdx.length ≠ arr.rows then
    .error "The number of node names in order of the array rows/columns should match the number of rows/columns in array."
  else if ¬ entriesValid arr then
    .error "Some entries of array are not causal-learn specified."
  else
    match emptyGraphFor graphType with
    | .error e => .error e
    | .ok g0 =>
      let g := decodeFold arr arrIdx arr.rows g0
      .ok (if graphType == "dag" then toDirected g else g)

/-- The binary search of `np.searchsorted` with side `left`, run with
explicit fuel (the loop halves the interval, so `a.length` steps suffice). -/
def ssLoop (a : List Nat) (v : Nat) : Nat → Nat → Nat → Nat
  | 0, lo, _ => lo
  | fuel + 1, lo, hi =>
    if lo < hi then
      if a.getD ((lo + hi) / 2) 0 < v then ssLoop a v fuel ((lo + hi) / 2 + 1) hi
      else ssLoop a v fuel lo ((lo + hi) / 2)
    else lo

/-- Model of `np.searchsorted (a, v)` (side `left`). -/
def searchsorted (a : List Nat) (v : Nat) : Nat :=
  ssLoop a v (a.length + 1) 0 a.length

/-- Translation of `graph_to_arr` (export.py lines 271-321).  The reorder step
follows the source: `new_order = np.searchsorted (node_order, arr_idx)`, then
`arr = arr[np.ix_ (new_order, new_order)]` and `arr_idx = [arr_idx[idx] for idx
in new_order]`; an out-of-range looked-up index models the numpy `IndexError`,
and the unmatched-format fall-through models the Python `NameError` on the
unbound `arr`. -/
def graphToArr (G : MixedGraph) (format : String) (nodeOrder : Option (List Nat)) :
    Except String (CArr × List Nat) :=
  if format == "causal-learn" then do
    let res ← graphToClearnArr G
    match nodeOrder with
    | none => .ok res
    | some no =>
      let arr := res.1
      let arrIdx := res.2
      let newOrder := arrIdx.map (fun x => searchsorted no x)
      if newOrder.all (fun k => k < arr.rows) then
        .ok (⟨arr.rows, arr.cols, fun i j => arr.entry (newOrder.getD i arr.rows) (newOrder.getD j arr.cols)⟩,
             newOrder.map (fun k => arrIdx.getD k 0))
      else .error "IndexError: index out of bounds"
  else .error "NameError: name arr is not defined"

/-- Projection of an encoder result to one matrix cell. -/
def encodeEntry (G : MixedGraph) (i j : Nat) : Except String Int :=
  (graphToClearnArr G).map (fun p => p.1.entry i j)

/-- Projection of a `graph_to_arr` result to its returned index list. -/
def arrIdxOf (r : Except String (CArr × List Nat)) : Except String (List Nat) :=
  r.map (fun p => p.2)

/-- The matrix-independent condition under which one iteration of the encoder
loop raises. -/
def stepFails (G : MixedGraph) (p : Nat × Nat) : Prop :=
  p.1 ≠ p.2 ∧ neighborb G p.1 p.2 = true ∧ ∃ e, endpointsFor G p.1 p.2 = .error e

/-- The value (if any) that the encoder-loop iteration for the ordered pair
`p` writes into the matrix cell `(i, j)`; the second `CArr.set` of the
iteration overwrites the first when the two target cells coincide. -/
def writeVal (G : MixedGraph) (arrIdx : List Nat) (p : Nat × Nat) (i j : Nat) : Option Int :=
  if p.1 = p.2 then none
  else if neighborb G p.1 p.2 = false then none
  else
    match endpointsFor G p.1 p.2 with
    | .error _ => none
    | .ok eps =>
      if i = arrIdx.indexOf p.2 ∧ j = arrIdx.indexOf p.1 then some eps.2.value
      else if i = arrIdx.indexOf p.1 ∧ j = arrIdx.indexOf p.2 then some eps.1.value
      else none

/-- Well-formed edge list over a node list: endpoints are nodes and there are
no self-loop pairs. -/
def goodEdges (ns : List Nat) (es : Edges) : Prop :=
  ∀ e ∈ es, e.1 ∈ ns ∧ e.2 ∈ ns ∧ e.1 ≠ e.2

/-- The node-pair configurations of a standard four-sub-graph mixed-edge
graph that the array encoding can represent faithfully: no edge, a single
directed, bidirected or undirected edge, a circle mark at both ends, the
three two-type compound combinations, or an undirected edge with a single
circle mark.  (A directed two-cycle, a lone one-sided circle mark, and a
circle mark opposite a directed arrowhead are excluded.) -/
def pairRepresentable (d b un c : Edges) (u v : Nat) : Prop :=
  ((u, v) ∉ d ∧ (v, u) ∉ d ∧ (u, v) ∉ b ∧ (v, u) ∉ b ∧
    (u, v) ∉ un ∧ (v, u) ∉ un ∧ (u, v) ∉ c ∧ (v, u) ∉ c) ∨
  ((u, v) ∈ d ∧ (v, u) ∉ d ∧ (u, v) ∉ b ∧ (v, u) ∉ b ∧
    (u, v) ∉ un ∧ (v, u) ∉ un ∧ (u, v) ∉ c ∧ (v, u) ∉ c) ∨
  ((u, v) ∉ d ∧ (v, u) ∈ d ∧ (u, v) ∉ b ∧ (v, u) ∉ b ∧
    (u, v) ∉ un ∧ (v, u) ∉ un ∧ (u, v) ∉ c ∧ (v, u) ∉ c) ∨
  ((u, v) ∉ d ∧ (v, u) ∉ d ∧ ((u, v) ∈ b ∨ (v, u) ∈ b) ∧
    (u, v) ∉ un ∧ (v, u) ∉ un ∧ (u, v) ∉ c ∧ (v, u) ∉ c) ∨
  ((u, v) ∉ d ∧ (v, u) ∉ d ∧ (u, v) ∉ b ∧ (v, u) ∉ b ∧
    ((u, v) ∈ un ∨ (v, u) ∈ un) ∧ (u, v) ∉ c ∧ (v, u) ∉ c) ∨
  ((u, v) ∉ d ∧ (v, u) ∉ d ∧ (u, v) ∉ b ∧ (v, u) ∉ b ∧
    (u, v) ∉ un ∧ (v, u) ∉ un ∧ (u, v) ∈ c ∧ (v, u) ∈ c) ∨
  ((u, v) ∈ d ∧ (v, u) ∉ d ∧ ((u, v) ∈ b ∨ (v, u) ∈ b) ∧
    (u, v) ∉ un ∧ (v, u) ∉ un ∧ (u, v) ∉ c ∧ (v, u) ∉ c) ∨
  ((u, v) ∉ d ∧ (v, u) ∈ d ∧ ((u, v) ∈ b ∨ (v, u) ∈ b) ∧
    (u, v) ∉ un ∧ (v, u) ∉ un ∧ (u, v) ∉ c ∧ (v, u) ∉ c) ∨
  ((u, v) ∈ d ∧ (v, u) ∉ d ∧ (u, v) ∉ b ∧ (v, u) ∉ b ∧
    ((u, v) ∈ un ∨ (v, u) ∈ un) ∧ (u, v) ∉ c ∧ (v, u) ∉ c) ∨
  ((u, v) ∉ d ∧ (v, u) ∈ d ∧ (u, v) ∉ b ∧ (v, u) ∉ b ∧
    ((u, v) ∈ un ∨ (v, u) ∈ un) ∧ (u, v) ∉ c ∧ (v, u) ∉ c) ∨
  ((u, v) ∉ d ∧ (v, u) ∉ d ∧ ((u, v) ∈ b ∨ (v, u) ∈ b) ∧
    ((u, v) ∈ un ∨ (v, u) ∈ un) ∧ (u, v) ∉ c ∧ (v, u) ∉ c) ∨
  ((u, v) ∉ d ∧ (v, u) ∉ d ∧ (u, v) ∉ b ∧ (v, u) ∉ b ∧
    ((u, v) ∈ un ∨ (v, u) ∈ un) ∧ (u, v) ∈ c ∧ (v, u) ∉ c) ∨
  ((u, v) ∉ d ∧ (v, u) ∉ d ∧ (u, v) ∉ b ∧ (v, u) ∉ b ∧
    ((u, v) ∈ un ∨ (v, u) ∈ un) ∧ (u, v) ∉ c ∧ (v, u) ∈ c)

/-- Edge-level equivalence of two mixed-edge graphs: the same node set, and
the same answers to every per-edge-type presence query between nodes, for the
four recognized edge types. -/
def edgeEquiv (G H : MixedGraph) : Prop :=
  (∀ x ∈ G.nodes, x ∈ H.nodes) ∧ (∀ x ∈ H.nodes, x ∈ G.nodes) ∧
  (∀ u ∈ G.nodes, ∀ v ∈ G.nodes,
    ∀ t ∈ [directedName, bidirectedName, undirectedName, circleName],
      hasEdgeB G u v t = hasEdgeB H u v t)

instance (ns : List Nat) (es : Edges) : Decidable (goodEdges ns es) := by
  unfold goodEdges
  infer_instance

instance (d b un c : Edges) (u v : Nat) : Decidable (pairRepresentable d b un c u v) := by
  unfold pairRepresentable
  repeat' refine @instDecidableOr _ _ ?_ ?_
  all_goals infer_instance

instance (G H : MixedGraph) : Decidable (edgeEquiv G H) := by
  unfold edgeEquiv
  infer_instance

/-- A concrete 3 by 3 zero matrix. -/
def arr3 : CArr := ⟨3, 3, fun _ _ => 0⟩

/-- A concrete 2 by 2 matrix with an invalid endpoint code. -/
def arrBad : CArr := ⟨2, 2, fun i j => if i = 0 ∧ j = 1 then 7 else 0⟩

/-- A concrete 2 by 2 matrix holding a circle code at cell (0, 1) and the
none code everywhere else. -/
def arrCircNull : CArr := ⟨2, 2, fun i j => if i = 0 ∧ j = 1 then 2 else 0⟩

/-- A concrete graph with a single directed edge from node 0 to node 1. -/
def cexDirGraph : MixedGraph := mkGraph [0, 1] [(0, 1)] [] [] []

/-- The matrix component of a successful encoding (used to name concrete
encoder outputs in witnesses). -/
def encArrOf (G : MixedGraph) : CArr :=
  match graphToClearnArr G with
  | .ok p => p.1
  | .error _ => CArr.zeros 0

/-- The index component of a successful encoding. -/
def encIdxOf (G : MixedGraph) : List Nat :=
  match graphToClearnArr G with
  | .ok p => p.2
  | .error _ => []

/-- A concrete partial-ancestral graph with the single edge `0 o-> 1`:
directed edge from 0 to 1 plus a circle mark at 0 (circle sub-graph edge
`(1, 0)`). -/
def cexPagGraph : MixedGraph := mkGraph [0, 1] [(0, 1)] [] [] [(1, 0)]

/-- A concrete graph whose node list is not sorted: nodes `[3, 1, 2]` with a
directed edge from 3 to 1. -/
def cexOrderGraph : MixedGraph := mkGraph [3, 1, 2] [(3, 1)] [] [] []

/-! ### Basic facts about the data model -/

theorem edgeTypesFn_symm (G : MixedGraph) (u v : Nat) :
    edgeTypesFn G u v = edgeTypesFn G v u := by
  unfold edgeTypesFn
  congr 1
  apply List.filter_congr
  intro g _
  rw [Bool.or_comm]

theorem neighborb_of_edgeTypesFn_ne_nil (G : MixedGraph) (u v : Nat)
    (h : edgeTypesFn G u v ≠ []) :
    neighborb G u v = true ∨ neighborb G v u = true := by
  unfold edgeTypesFn at h
  rw [Ne, List.map_eq_nil_iff] at h
  rcases List.exists_mem_of_ne_nil _ h with ⟨g, hg⟩
  have hgmem := List.mem_of_mem_filter hg
  have hgp := List.of_mem_filter hg
  rw [Bool.or_eq_true, decide_eq_true_eq, decide_eq_true_eq] at hgp
  rcases hgp with h1 | h1
  · left
    unfold neighborb
    rw [List.any_eq_true]
    exact ⟨g, hgmem, by simp [h1]⟩
  · right
    unfold neighborb
    rw [List.any_eq_true]
    exact ⟨g, hgmem, by simp [h1]⟩

theorem mem_orderedPairs (ns : List Nat) (x y : Nat) :
    (x, y) ∈ orderedPairs ns ↔ x ∈ ns ∧ y ∈ ns := by
  simp [orderedPairs]

/-! ### Per-configuration endpoint computations

For each representable configuration of a node pair `(u, v)` in a standard
four-sub-graph mixed-edge graph, the encoder's per-pair endpoint computation
is evaluated in both iteration directions, together with the adjacency fact
used by the encoder loop. -/

theorem cfg_none_facts (ns : List Nat) (d b un c : Edges) (u v : Nat)
    (hd1 : (u, v) ∉ d) (hd2 : (v, u) ∉ d)
    (hb1 : (u, v) ∉ b) (hb2 : (v, u) ∉ b)
    (hu1 : (u, v) ∉ un) (hu2 : (v, u) ∉ un)
    (hc1 : (u, v) ∉ c) (hc2 : (v, u) ∉ c) :
    neighborb (mkGraph ns d b un c) u v = false ∧
    neighborb (mkGraph ns d b un c) v u = false := by
  constructor <;>
    simp [neighborb, mkGraph, hd1, hd2, hb1, hb2, hu1, hu2, hc1, hc2]

theorem cfg_dir_facts (ns : List Nat) (d b un c : Edges) (u v : Nat)
    (hd1 : (u, v) ∈ d) (hd2 : (v, u) ∉ d)
    (hb1 : (u, v) ∉ b) (hb2 : (v, u) ∉ b)
    (hu1 : (u, v) ∉ un) (hu2 : (v, u) ∉ un)
    (hc1 : (u, v) ∉ c) (hc2 : (v, u) ∉ c) :
    endpointsFor (mkGraph ns d b un c) u v = .ok (.tail, .arrow) ∧
    endpointsFor (mkGraph ns d b un c) v u = .ok (.arrow, .tail) ∧
    neighborb (mkGraph ns d b un c) u v = true := by
  refine ⟨?_, ?_, ?_⟩ <;>
    simp [endpointsFor, edgeTypesFn, mkGraph, hasEdgeB, neighborb,
      hd1, hd2, hb1, hb2, hu1, hu2, hc1, hc2,
      directedName, bidirectedName, undirectedName, circleName]

theorem cfg_bi_facts (ns : List Nat) (d b un c : Edges) (u v : Nat)
    (hd1 : (u, v) ∉ d) (hd2 : (v, u) ∉ d)
    (hb : (u, v) ∈ b ∨ (v, u) ∈ b)
    (hu1 : (u, v) ∉ un) (hu2 : (v, u) ∉ un)
    (hc1 : (u, v) ∉ c) (hc2 : (v, u) ∉ c) :
    endpointsFor (mkGraph ns d b un c) u v = .ok (.arrow, .arrow) ∧
    endpointsFor (mkGraph ns d b un c) v u = .ok (.arrow, .arrow) ∧
    neighborb (mkGraph ns d b un c) u v = true := by
  rcases hb with hb | hb <;>
    refine ⟨?_, ?_, ?_⟩ <;>
      simp [endpointsFor, edgeTypesFn, mkGraph, hasEdgeB, neighborb,
        hd1, hd2, hb, hu1, hu2, hc1, hc2,
        directedName, bidirectedName, undirectedName, circleName]

theorem cfg_un_facts (ns : List Nat) (d b un c : Edges) (u v : Nat)
    (hd1 : (u, v) ∉ d) (hd2 : (v, u) ∉ d)
    (hb1 : (u, v) ∉ b) (hb2 : (v, u) ∉ b)
    (hu : (u, v) ∈ un ∨ (v, u) ∈ un)
    (hc1 : (u, v) ∉ c) (hc2 : (v, u) ∉ c) :
    endpointsFor (mkGraph ns d b un c) u v = .ok (.tail, .tail) ∧
    endpointsFor (mkGraph ns d b un c) v u = .ok (.tail, .tail) ∧
    neighborb (mkGraph ns d b un c) u v = true := by
  rcases hu with hu | hu <;>
    refine ⟨?_, ?_, ?_⟩ <;>
      simp [endpointsFor, edgeTypesFn, mkGraph, hasEdgeB, neighborb,
        hd1, hd2, hb1, hb2, hu, hc1, hc2,
        directedName, bidirectedName, undirectedName, circleName]

theorem cfg_oo_facts (ns : List Nat) (d b un c : Edges) (u v : Nat)
    (hd1 : (u, v) ∉ d) (hd2 : (v, u) ∉ d)
    (hb1 : (u, v) ∉ b) (hb2 : (v, u) ∉ b)
    (hu1 : (u, v) ∉ un) (hu2 : (v, u) ∉ un)
    (hc1 : (u, v) ∈ c) (hc2 : (v, u) ∈ c) :
    endpointsFor (mkGraph ns d b un c) u v = .ok (.circle, .circle) ∧
    endpointsFor (mkGraph ns d b un c) v u = .ok (.circle, .circle) ∧
    neighborb (mkGraph ns d b un c) u v = true := by
  refine ⟨?_, ?_, ?_⟩ <;>
    simp [endpointsFor, edgeTypesFn, mkGraph, hasEdgeB, neighborb,
      hd1, hd2, hb1, hb2, hu1, hu2, hc1, hc2,
      directedName, bidirectedName, undirectedName, circleName]

theorem cfg_dirbi_facts (ns : List Nat) (d b un c : Edges) (u v : Nat)
    (hd1 : (u, v) ∈ d) (hd2 : (v, u) ∉ d)
    (hb : (u, v) ∈ b ∨ (v, u) ∈ b)
    (hu1 : (u, v) ∉ un) (hu2 : (v, u) ∉ un)
    (hc1 : (u, v) ∉ c) (hc2 : (v, u) ∉ c) :
    endpointsFor (mkGraph ns d b un c) u v = .ok (.tailAndArrow, .arrowAndArrow) ∧
    endpointsFor (mkGraph ns d b un c) v u = .ok (.arrowAndArrow, .tailAndArrow) ∧
    neighborb (mkGraph ns d b un c) u v = true := by
  rcases hb with hb | hb <;>
    refine ⟨?_, ?_, ?_⟩ <;>
      simp [endpointsFor, edgeTypesFn, mkGraph, hasEdgeB, neighborb,
        hd1, hd2, hb, hu1, hu2, hc1, hc2,
        directedName, bidirectedName, undirectedName, circleName]

theorem cfg_dirun_facts (ns : List Nat) (d b un c : Edges) (u v : Nat)
    (hd1 : (u, v) ∈ d) (hd2 : (v, u) ∉ d)
    (hb1 : (u, v) ∉ b) (hb2 : (v, u) ∉ b)
    (hu : (u, v) ∈ un ∨ (v, u) ∈ un)
    (hc1 : (u, v) ∉ c) (hc2 : (v, u) ∉ c) :
    endpointsFor (mkGraph ns d b un c) u v = .ok (.tailAndTail, .tailAndArrow) ∧
    endpointsFor (mkGraph ns d b un c) v u = .ok (.tailAndArrow, .tailAndTail) ∧
    neighborb (mkGraph ns d b un c) u v = true := by
  rcases hu with hu | hu <;>
    refine ⟨?_, ?_, ?_⟩ <;>
      simp [endpointsFor, edgeTypesFn, mkGraph, hasEdgeB, neighborb,
        hd1, hd2, hb1, hb2, hu, hc1, hc2,
        directedName, bidirectedName, undirectedName, circleName]

theorem cfg_biun_facts (ns : List Nat) (d b un c : Edges) (u v : Nat)
    (hd1 : (u, v) ∉ d) (hd2 : (v, u) ∉ d)
    (hb : (u, v) ∈ b ∨ (v, u) ∈ b)
    (hu : (u, v) ∈ un ∨ (v, u) ∈ un)
    (hc1 : (u, v) ∉ c) (hc2 : (v, u) ∉ c) :
    endpointsFor (mkGraph ns d b un c) u v = .ok (.tailAndArrow, .tailAndArrow) ∧
    endpointsFor (mkGraph ns d b un c) v u = .ok (.tailAndArrow, .tailAndArrow) ∧
    neighborb (mkGraph ns d b un c) u v = true := by
  rcases hb with hb | hb <;> rcases hu with hu | hu <;>
    refine ⟨?_, ?_, ?_⟩ <;>
      simp [endpointsFor, edgeTypesFn, mkGraph, hasEdgeB, neighborb,
        hd1, hd2, hb, hu, hc1, hc2,
        directedName, bidirectedName, undirectedName, circleName]

theorem cfg_circun_facts (ns : List Nat) (d b un c : Edges) (u v : Nat)
    (hd1 : (u, v) ∉ d) (hd2 : (v, u) ∉ d)
    (hb1 : (u, v) ∉ b) (hb2 : (v, u) ∉ b)
    (hu : (u, v) ∈ un ∨ (v, u) ∈ un)
    (hc1 : (u, v) ∈ c) (hc2 : (v, u) ∉ c) :
    endpointsFor (mkGraph ns d b un c) u v = .ok (.tail, .circle) ∧
    endpointsFor (mkGraph ns d b un c) v u = .ok (.circle, .tail) ∧
    neighborb (mkGraph ns d b un c) u v = true := by
  rcases hu with hu | hu <;>
    refine ⟨?_, ?_, ?_⟩ <;>
      simp [endpointsFor, edgeTypesFn, mkGraph, hasEdgeB, neighborb,
        hd1, hd2, hb1, hb2, hu, hc1, hc2,
        directedName, bidirectedName, undirectedName, circleName]

/-! ### Error propagation through the encoder fold -/

theorem encodeStep_error_of_stepFails (G : MixedGraph) (arrIdx : List Nat) (arr : CArr)
    (p : Nat × Nat) (h : stepFails G p) :
    ∃ e, encodeStep G arrIdx arr p = .error e := by
  obtain ⟨h1, h2, e, h3⟩ := h
  refine ⟨e, ?_⟩
  unfold encodeStep
  rw [if_neg h1, if_neg (by simp [h2]), h3]
  rfl

theorem foldlM_error_of_stepFails (G : MixedGraph) (arrIdx : List Nat) (ps : List (Nat × Nat))
    (p : Nat × Nat) (hp : p ∈ ps) (hf : stepFails G p) (arr : CArr) :
    ∃ e, ps.foldlM (encodeStep G arrIdx) arr = .error e := by
  induction ps generalizing arr with
  | nil => cases hp
  | cons q ps ih =>
    rw [List.foldlM_cons]
    cases hq : encodeStep G arrIdx arr q with
    | error e => exact ⟨e, rfl⟩
    | ok arr' =>
      rcases List.mem_cons.mp hp with heq | hp'
      · obtain ⟨e, he⟩ := encodeStep_error_of_stepFails G arrIdx arr q (heq ▸ hf)
        rw [hq] at he
        cases he
      · obtain ⟨e, he⟩ := ih hp' arr'
        exact ⟨e, he⟩

/-! ### Entry characterization of the encoder fold -/

theorem encodeStep_entry (G : MixedGraph) (arrIdx : List Nat) (arr arr' : CArr)
    (p : Nat × Nat) (i j : Nat) (h : encodeStep G arrIdx arr p = .ok arr') :
    arr'.entry i j = (writeVal G arrIdx p i j).getD (arr.entry i j) := by
  unfold encodeStep at h
  unfold writeVal
  by_cases h1 : p.1 = p.2
  · rw [if_pos h1] at h
    injection h with h
    subst h
    rw [if_pos h1]
    rfl
  · rw [if_neg h1] at h
    rw [if_neg h1]
    by_cases h2 : neighborb G p.1 p.2 = false
    · rw [if_pos (by simp [h2])] at h
      injection h with h
      subst h
      rw [if_pos h2]
      rfl
    · have h2' : neighborb G p.1 p.2 = true := by
        cases hx : neighborb G p.1 p.2
        · exact absurd hx h2
        · rfl
      rw [if_neg (by simp [h2'])] at h
      rw [if_neg h2]
      cases hep : endpointsFor G p.1 p.2 with
      | error e =>
        rw [hep] at h
        replace h : (Except.error e : Except String CArr) = .ok arr' := h
        cases h
      | ok eps =>
        rw [hep] at h
        replace h : (Except.ok ((arr.set (arrIdx.indexOf p.1) (arrIdx.indexOf p.2) eps.1.value).set
            (arrIdx.indexOf p.2) (arrIdx.indexOf p.1) eps.2.value) : Except String CArr) =
            .ok arr' := h
        injection h with h
        subst h
        simp only [CArr.set]
        split_ifs with hA hB
        · rfl
        · rfl
        · rfl

theorem encodeStep_ok_form (G : MixedGraph) (arrIdx : List Nat) (arr arr' : CArr)
    (p : Nat × Nat) (h : encodeStep G arrIdx arr p = .ok arr') :
    arr' = arr ∨ ∃ eps, endpointsFor G p.1 p.2 = .ok eps ∧
      arr' = (arr.set (arrIdx.indexOf p.1) (arrIdx.indexOf p.2) eps.1.value).set
        (arrIdx.indexOf p.2) (arrIdx.indexOf p.1) eps.2.value := by
  unfold encodeStep at h
  by_cases h1 : p.1 = p.2
  · rw [if_pos h1] at h
    injection h with h
    exact Or.inl h.symm
  · rw [if_neg h1] at h
    by_cases h2 : neighborb G p.1 p.2 = false
    · rw [if_pos (by simp [h2])] at h
      injection h with h
      exact Or.inl h.symm
    · have h2' : neighborb G p.1 p.2 = true := by
        cases hx : neighborb G p.1 p.2
        · exact absurd hx h2
        · rfl
      rw [if_neg (by simp [h2'])] at h
      cases hep : endpointsFor G p.1 p.2 with
      | error e =>
        rw [hep] at h
        replace h : (Except.error e : Except String CArr) = .ok arr' := h
        cases h
      | ok eps =>
        rw [hep] at h
        replace h : (Except.ok ((arr.set (arrIdx.indexOf p.1) (arrIdx.indexOf p.2) eps.1.value).set
            (arrIdx.indexOf p.2) (arrIdx.indexOf p.1) eps.2.value) : Except String CArr) =
            .ok arr' := h
        injection h with h
        exact Or.inr ⟨eps, rfl, h.symm⟩

theorem foldlM_entry_stable (G : MixedGraph) (arrIdx : List Nat) (i j : Nat) (w : Int)
    (ps : List (Nat × Nat)) (arr0 arr' : CArr)
    (hfold : ps.foldlM (encodeStep G arrIdx) arr0 = .ok arr')
    (hW : ∀ p ∈ ps, writeVal G arrIdx p i j = none ∨ writeVal G arrIdx p i j = some w)
    (hinit : arr0.entry i j = w ∨ ∃ p ∈ ps, writeVal G arrIdx p i j = some w) :
    arr'.entry i j = w := by
  induction ps generalizing arr0 with
  | nil =>
    replace hfold : (Except.ok arr0 : Except String CArr) = .ok arr' := hfold
    injection hfold with h
    subst h
    rcases hinit with h | ⟨p, hp, -⟩
    · exact h
    · cases hp
  | cons q ps ih =>
    rw [List.foldlM_cons] at hfold
    cases hq : encodeStep G arrIdx arr0 q with
    | error e =>
      rw [hq] at hfold
      replace hfold : (Except.error e : Except String CArr) = .ok arr' := hfold
      cases hfold
    | ok arr1 =>
      rw [hq] at hfold
      replace hfold : ps.foldlM (encodeStep G arrIdx) arr1 = .ok arr' := hfold
      have hstep := encodeStep_entry G arrIdx arr0 arr1 q i j hq
      refine ih arr1 hfold (fun p hp => hW p (List.mem_cons_of_mem q hp)) ?_
      rcases hW q (List.mem_cons_self q ps) with hnone | hsome
      · rw [hnone] at hstep
        simp only [Option.getD_none] at hstep
        rcases hinit with h | ⟨p, hp, hpw⟩
        · exact Or.inl (by rw [hstep]; exact h)
        · rcases List.mem_cons.mp hp with rfl | hp'
          · rw [hpw] at hnone
            cases hnone
          · exact Or.inr ⟨p, hp', hpw⟩
      · rw [hsome] at hstep
        simp only [Option.getD_some] at hstep
        exact Or.inl hstep

theorem encodeStep_ok_of_stepOk (G : MixedGraph) (arrIdx : List Nat) (arr : CArr)
    (p : Nat × Nat)
    (h : p.1 = p.2 ∨ neighborb G p.1 p.2 = false ∨ ∃ ab, endpointsFor G p.1 p.2 = .ok ab) :
    ∃ arr', encodeStep G arrIdx arr p = .ok arr' := by
  unfold encodeStep
  by_cases h1 : p.1 = p.2
  · exact ⟨arr, by rw [if_pos h1]⟩
  · rw [if_neg h1]
    by_cases h2 : neighborb G p.1 p.2 = false
    · exact ⟨arr, by rw [if_pos (by simp [h2])]⟩
    · have h2' : neighborb G p.1 p.2 = true := by
        cases hx : neighborb G p.1 p.2
        · exact absurd hx h2
        · rfl
      rw [if_neg (by simp [h2'])]
      rcases h with h | h | ⟨ab, hab⟩
      · exact absurd h h1
      · exact absurd h h2
      · exact ⟨_, by rw [hab]; rfl⟩

theorem foldlM_ok_of_stepOk (G : MixedGraph) (arrIdx : List Nat) (ps : List (Nat × Nat))
    (h : ∀ p ∈ ps,
      p.1 = p.2 ∨ neighborb G p.1 p.2 = false ∨ ∃ ab, endpointsFor G p.1 p.2 = .ok ab) :
    ∀ arr0, ∃ arr', ps.foldlM (encodeStep G arrIdx) arr0 = .ok arr' := by
  induction ps with
  | nil => exact fun arr0 => ⟨arr0, rfl⟩
  | cons q ps ih =>
    intro arr0
    obtain ⟨arr1, h1⟩ :=
      encodeStep_ok_of_stepOk G arrIdx arr0 q (h q (List.mem_cons_self q ps))
    obtain ⟨arr', h2⟩ := ih (fun p hp => h p (List.mem_cons_of_mem q hp)) arr1
    refine ⟨arr', ?_⟩
    rw [List.foldlM_cons, h1]
    exact h2

theorem foldlM_preserve (G : MixedGraph) (arrIdx : List Nat) (P : CArr → Prop)
    (hP : ∀ arr p arr', encodeStep G arrIdx arr p = .ok arr' → P arr → P arr')
    (ps : List (Nat × Nat)) (arr0 arr' : CArr)
    (hfold : ps.foldlM (encodeStep G arrIdx) arr0 = .ok arr') (h0 : P arr0) : P arr' := by
  induction ps generalizing arr0 with
  | nil =>
    replace hfold : (Except.ok arr0 : Except String CArr) = .ok arr' := hfold
    injection hfold with h
    exact h ▸ h0
  | cons q ps ih =>
    rw [List.foldlM_cons] at hfold
    cases hq : encodeStep G arrIdx arr0 q with
    | error e =>
      rw [hq] at hfold
      replace hfold : (Except.error e : Except String CArr) = .ok arr' := hfold
      cases hfold
    | ok arr1 =>
      rw [hq] at hfold
      exact ih arr1 hfold (hP arr0 q arr1 hq h0)

theorem encode_destruct (G : MixedGraph) (arr : CArr) (idx : List Nat)
    (h : graphToClearnArr G = .ok (arr, idx)) :
    idx = G.nodes ∧
    (orderedPairs G.nodes).foldlM (encodeStep G G.nodes) (CArr.zeros G.nodes.length) = .ok arr := by
  unfold graphToClearnArr at h
  cases hf : (orderedPairs G.nodes).foldlM (encodeStep G G.nodes) (CArr.zeros G.nodes.length) with
  | error e =>
    rw [hf] at h
    replace h : (Except.error e : Except String (CArr × List Nat)) = .ok (arr, idx) := h
    cases h
  | ok arr0 =>
    rw [hf] at h
    replace h : (Except.ok (arr0, G.nodes) : Except String (CArr × List Nat)) = .ok (arr, idx) := h
    injection h with h
    have h1 : arr0 = arr := congrArg Prod.fst h
    have h2 : G.nodes = idx := congrArg Prod.snd h
    exact ⟨h2.symm, congrArg Except.ok h1⟩

theorem encode_shape (G : MixedGraph) (arr : CArr) (idx : List Nat)
    (henc : graphToClearnArr G = .ok (arr, idx)) :
    arr.rows = G.nodes.length ∧ arr.cols = G.nodes.length ∧
    ∀ i j, ∃ ep : CLearnEndpoint, arr.entry i j = ep.value := by
  obtain ⟨-, hfold⟩ := encode_destruct G arr idx henc
  refine foldlM_preserve G G.nodes
    (fun a => a.rows = G.nodes.length ∧ a.cols = G.nodes.length ∧
      ∀ i j, ∃ ep : CLearnEndpoint, a.entry i j = ep.value)
    ?_ _ _ _ hfold ⟨rfl, rfl, fun i j => ⟨.null, rfl⟩⟩
  intro arrA p arrB hstep hPA
  rcases encodeStep_ok_form G G.nodes arrA arrB p hstep with rfl | ⟨eps, -, rfl⟩
  · exact hPA
  · refine ⟨hPA.1, hPA.2.1, ?_⟩
    intro i j
    simp only [CArr.set]
    split_ifs
    · exact ⟨eps.2, rfl⟩
    · exact ⟨eps.1, rfl⟩
    · exact hPA.2.2 i j

theorem writeVal_diag (G : MixedGraph) (arrIdx : List Nat) (p : Nat × Nat) (i j : Nat)
    (h : p.1 = p.2) : writeVal G arrIdx p i j = none := by
  unfold writeVal
  rw [if_pos h]

theorem writeVal_nonadj (G : MixedGraph) (arrIdx : List Nat) (p : Nat × Nat) (i j : Nat)
    (h1 : p.1 ≠ p.2) (h2 : neighborb G p.1 p.2 = false) : writeVal G arrIdx p i j = none := by
  unfold writeVal
  rw [if_neg h1, if_pos h2]

theorem writeVal_error (G : MixedGraph) (arrIdx : List Nat) (p : Nat × Nat) (i j : Nat)
    (e : String) (h1 : p.1 ≠ p.2) (h2 : neighborb G p.1 p.2 = true)
    (hep : endpointsFor G p.1 p.2 = .error e) : writeVal G arrIdx p i j = none := by
  unfold writeVal
  rw [if_neg h1, if_neg (by simp [h2]), hep]

theorem writeVal_ok (G : MixedGraph) (arrIdx : List Nat) (p : Nat × Nat) (i j : Nat)
    (eps : CLearnEndpoint × CLearnEndpoint) (h1 : p.1 ≠ p.2)
    (h2 : neighborb G p.1 p.2 = true) (hep : endpointsFor G p.1 p.2 = .ok eps) :
    writeVal G arrIdx p i j =
      if i = arrIdx.indexOf p.2 ∧ j = arrIdx.indexOf p.1 then some eps.2.value
      else if i = arrIdx.indexOf p.1 ∧ j = arrIdx.indexOf p.2 then some eps.1.value
      else none := by
  unfold writeVal
  rw [if_neg h1, if_neg (by simp [h2]), hep]

theorem encode_entry (G : MixedGraph) (hnd : G.nodes.Nodup) (u v : Nat)
    (hu : u ∈ G.nodes) (hv : v ∈ G.nodes) (huv : u ≠ v)
    (a b : CLearnEndpoint)
    (h1 : endpointsFor G u v = .ok (a, b)) (h2 : endpointsFor G v u = .ok (b, a))
    (hadj : neighborb G u v = true ∨ neighborb G v u = true)
    (arr : CArr) (idx : List Nat) (henc : graphToClearnArr G = .ok (arr, idx)) :
    arr.entry (G.nodes.indexOf u) (G.nodes.indexOf v) = a.value := by
  obtain ⟨-, hfold⟩ := encode_destruct G arr idx henc
  have hne : G.nodes.indexOf u ≠ G.nodes.indexOf v :=
    fun h => huv ((List.indexOf_inj hu hv).mp h)
  refine foldlM_entry_stable G G.nodes (G.nodes.indexOf u) (G.nodes.indexOf v) a.value
    (orderedPairs G.nodes) (CArr.zeros G.nodes.length) arr hfold ?_ ?_
  · intro p hp
    obtain ⟨hx, hy⟩ := (mem_orderedPairs G.nodes p.1 p.2).mp hp
    by_cases hq1 : p.1 = p.2
    · rw [writeVal_diag G G.nodes p _ _ hq1]
      exact Or.inl rfl
    · by_cases hq2 : neighborb G p.1 p.2 = false
      · rw [writeVal_nonadj G G.nodes p _ _ hq1 hq2]
        exact Or.inl rfl
      · have hq2' : neighborb G p.1 p.2 = true := by
          cases hx2 : neighborb G p.1 p.2
          · exact absurd hx2 hq2
          · rfl
        cases hep : endpointsFor G p.1 p.2 with
        | error e =>
          rw [writeVal_error G G.nodes p _ _ e hq1 hq2' hep]
          exact Or.inl rfl
        | ok eps =>
          rw [writeVal_ok G G.nodes p _ _ eps hq1 hq2' hep]
          by_cases hc1 : G.nodes.indexOf u = G.nodes.indexOf p.2 ∧
              G.nodes.indexOf v = G.nodes.indexOf p.1
          · rw [if_pos hc1]
            have hpu : u = p.2 := (List.indexOf_inj hu hy).mp hc1.1
            have hpv : v = p.1 := (List.indexOf_inj hv hx).mp hc1.2
            rw [← hpv, ← hpu] at hep
            rw [h2] at hep
            injection hep with hep
            rw [← hep]
            exact Or.inr rfl
          · rw [if_neg hc1]
            by_cases hc2 : G.nodes.indexOf u = G.nodes.indexOf p.1 ∧
                G.nodes.indexOf v = G.nodes.indexOf p.2
            · rw [if_pos hc2]
              have hpu : u = p.1 := (List.indexOf_inj hu hx).mp hc2.1
              have hpv : v = p.2 := (List.indexOf_inj hv hy).mp hc2.2
              rw [← hpu, ← hpv] at hep
              rw [h1] at hep
              injection hep with hep
              rw [← hep]
              exact Or.inr rfl
            · rw [if_neg hc2]
              exact Or.inl rfl
  · rcases hadj with hn | hn
    · refine Or.inr ⟨(u, v), (mem_orderedPairs G.nodes u v).mpr ⟨hu, hv⟩, ?_⟩
      rw [writeVal_ok G G.nodes (u, v) _ _ (a, b) huv hn h1]
      rw [if_neg (fun hq : G.nodes.indexOf u = G.nodes.indexOf v ∧ _ => hne hq.1),
        if_pos ⟨rfl, rfl⟩]
    · refine Or.inr ⟨(v, u), (mem_orderedPairs G.nodes v u).mpr ⟨hv, hu⟩, ?_⟩
      rw [writeVal_ok G G.nodes (v, u) _ _ (b, a) (Ne.symm huv) hn h2]
      rw [if_pos ⟨rfl, rfl⟩]

theorem encode_entry_zero (G : MixedGraph) (hnd : G.nodes.Nodup) (u v : Nat)
    (hu : u ∈ G.nodes) (hv : v ∈ G.nodes) (huv : u ≠ v)
    (hadj1 : neighborb G u v = false) (hadj2 : neighborb G v u = false)
    (arr : CArr) (idx : List Nat) (henc : graphToClearnArr G = .ok (arr, idx)) :
    arr.entry (G.nodes.indexOf u) (G.nodes.indexOf v) = 0 := by
  obtain ⟨-, hfold⟩ := encode_destruct G arr idx henc
  refine foldlM_entry_stable G G.nodes (G.nodes.indexOf u) (G.nodes.indexOf v) 0
    (orderedPairs G.nodes) (CArr.zeros G.nodes.length) arr hfold ?_ (Or.inl rfl)
  intro p hp
  obtain ⟨hx, hy⟩ := (mem_orderedPairs G.nodes p.1 p.2).mp hp
  by_cases hq1 : p.1 = p.2
  · rw [writeVal_diag G G.nodes p _ _ hq1]
    exact Or.inl rfl
  · by_cases hq2 : neighborb G p.1 p.2 = false
    · rw [writeVal_nonadj G G.nodes p _ _ hq1 hq2]
      exact Or.inl rfl
    · have hq2' : neighborb G p.1 p.2 = true := by
        cases hx2 : neighborb G p.1 p.2
        · exact absurd hx2 hq2
        · rfl
      cases hep : endpointsFor G p.1 p.2 with
      | error e =>
        rw [writeVal_error G G.nodes p _ _ e hq1 hq2' hep]
        exact Or.inl rfl
      | ok eps =>
        rw [writeVal_ok G G.nodes p _ _ eps hq1 hq2' hep]
        by_cases hc1 : G.nodes.indexOf u = G.nodes.indexOf p.2 ∧
            G.nodes.indexOf v = G.nodes.indexOf p.1
        · have hpu : u = p.2 := (List.indexOf_inj hu hy).mp hc1.1
          have hpv : v = p.1 := (List.indexOf_inj hv hx).mp hc1.2
          rw [← hpv, ← hpu] at hq2'
          rw [hadj2] at hq2'
          cases hq2'
        · by_cases hc2 : G.nodes.indexOf u = G.nodes.indexOf p.1 ∧
              G.nodes.indexOf v = G.nodes.indexOf p.2
          · have hpu : u = p.1 := (List.indexOf_inj hu hx).mp hc2.1
            have hpv : v = p.2 := (List.indexOf_inj hv hy).mp hc2.2
            rw [← hpu, ← hpv] at hq2'
            rw [hadj1] at hq2'
            cases hq2'
          · rw [if_neg hc1, if_neg hc2]
            exact Or.inl rfl

/-! ### Characterization of the decoded graph -/

theorem hasEdgeB_mk_directed (ns : List Nat) (d b un c : Edges) (u v : Nat) :
    hasEdgeB (mkGraph ns d b un c) u v directedName = decide ((u, v) ∈ d) := by
  simp [hasEdgeB, mkGraph, directedName, bidirectedName, undirectedName, circleName]

theorem hasEdgeB_mk_bidirected (ns : List Nat) (d b un c : Edges) (u v : Nat) :
    hasEdgeB (mkGraph ns d b un c) u v bidirectedName =
      (decide ((u, v) ∈ b) || decide ((v, u) ∈ b)) := by
  simp [hasEdgeB, mkGraph, directedName, bidirectedName, undirectedName, circleName]

theorem hasEdgeB_mk_undirected (ns : List Nat) (d b un c : Edges) (u v : Nat) :
    hasEdgeB (mkGraph ns d b un c) u v undirectedName =
      (decide ((u, v) ∈ un) || decide ((v, u) ∈ un)) := by
  simp [hasEdgeB, mkGraph, directedName, bidirectedName, undirectedName, circleName]

theorem hasEdgeB_mk_circle (ns : List Nat) (d b un c : Edges) (u v : Nat) :
    hasEdgeB (mkGraph ns d b un c) u v circleName = decide ((u, v) ∈ c) := by
  simp [hasEdgeB, mkGraph, directedName, bidirectedName, undirectedName, circleName]

theorem addNode_graphs (G : MixedGraph) (z : Nat) : (addNode G z).graphs = G.graphs := by
  unfold addNode
  split_ifs <;> rfl

theorem addNode_mem (G : MixedGraph) (z x : Nat) :
    x ∈ (addNode G z).nodes ↔ x ∈ G.nodes ∨ x = z := by
  unfold addNode
  split_ifs with h
  · constructor
    · exact Or.inl
    · rintro (hx | rfl)
      · exact hx
      · exact h
  · simp

theorem addEdge_nodes_mem (G : MixedGraph) (x y z : Nat) (s : String) :
    z ∈ (addEdge G x y s).nodes ↔ z ∈ G.nodes ∨ z = x ∨ z = y := by
  show z ∈ (addNode (addNode G x) y).nodes ↔ _
  rw [addNode_mem, addNode_mem]
  tauto

theorem addEdge_mkGraph (ns : List Nat) (d b un c : Edges) (x y : Nat) (t : String) :
    addEdge (mkGraph ns d b un c) x y t =
      mkGraph (addNode (addNode (mkGraph ns d b un c) x) y).nodes
        (if directedName = t then d ++ [(x, y)] else d)
        (if bidirectedName = t then b ++ [(x, y)] else b)
        (if undirectedName = t then un ++ [(x, y)] else un)
        (if circleName = t then c ++ [(x, y)] else c) := by
  show MixedGraph.mk _ _ = _
  unfold mkGraph
  congr 1
  rw [addNode_graphs, addNode_graphs]
  show List.map _ (mkGraph ns d b un c).graphs = _
  unfold mkGraph
  simp only [List.map_cons, List.map_nil]
  simp only [directedName, bidirectedName, undirectedName, circleName]
  split_ifs <;> simp_all

theorem decodePair_mem (eu ev : CLearnEndpoint) (x y : Nat) (e : Nat × Nat × String)
    (he : e ∈ decodePair eu ev x y) :
    ((e.1 = x ∧ e.2.1 = y) ∨ (e.1 = y ∧ e.2.1 = x)) ∧
      e.2.2 ∈ [directedName, bidirectedName, undirectedName, circleName] := by
  cases eu <;> cases ev <;>
    simp [decodePair] at he <;>
    first
      | (rcases he with rfl | rfl <;> simp)
      | (subst he; simp)

theorem addEdge_hasEdge_iff (ns : List Nat) (d b un c : Edges) (x y u v : Nat) (s t : String)
    (ht : t ∈ [directedName, bidirectedName, undirectedName, circleName]) :
    hasEdgeB (addEdge (mkGraph ns d b un c) x y s) u v t = true ↔
      (hasEdgeB (mkGraph ns d b un c) u v t = true ∨ insHitsP (x, y, s) u v t) := by
  rw [addEdge_mkGraph]
  simp only [List.mem_cons, List.not_mem_nil, or_false] at ht
  rcases ht with rfl | rfl | rfl | rfl
  · rw [hasEdgeB_mk_directed, hasEdgeB_mk_directed]
    by_cases hs : directedName = s
    · rw [if_pos hs, ← hs]
      simp [insHitsP, directedName, circleName]
    · rw [if_neg hs]
      have hs' : s ≠ directedName := fun h => hs h.symm
      simp [insHitsP, hs']
  · rw [hasEdgeB_mk_bidirected, hasEdgeB_mk_bidirected]
    by_cases hs : bidirectedName = s
    · rw [if_pos hs, ← hs]
      simp [insHitsP, directedName, bidirectedName, circleName]
      tauto
    · rw [if_neg hs]
      have hs' : s ≠ bidirectedName := fun h => hs h.symm
      simp [insHitsP, hs']
  · rw [hasEdgeB_mk_undirected, hasEdgeB_mk_undirected]
    by_cases hs : undirectedName = s
    · rw [if_pos hs, ← hs]
      simp [insHitsP, directedName, undirectedName, circleName]
      tauto
    · rw [if_neg hs]
      have hs' : s ≠ undirectedName := fun h => hs h.symm
      simp [insHitsP, hs']
  · rw [hasEdgeB_mk_circle, hasEdgeB_mk_circle]
    by_cases hs : circleName = s
    · rw [if_pos hs, ← hs]
      simp [insHitsP, directedName, circleName]
    · rw [if_neg hs]
      have hs' : s ≠ circleName := fun h => hs h.symm
      simp [insHitsP, hs']

theorem insertAll_shape (L : List (Nat × Nat × String)) (ns : List Nat) (d b un c : Edges) :
    ∃ ns2 d2 b2 un2 c2, insertAll (mkGraph ns d b un c) L = mkGraph ns2 d2 b2 un2 c2 := by
  induction L generalizing ns d b un c with
  | nil => exact ⟨ns, d, b, un, c, rfl⟩
  | cons e L ih =>
    rw [show insertAll (mkGraph ns d b un c) (e :: L) =
      insertAll (addEdge (mkGraph ns d b un c) e.1 e.2.1 e.2.2) L from rfl]
    rw [addEdge_mkGraph]
    exact ih _ _ _ _ _

theorem insertAll_hasEdge_iff (L : List (Nat × Nat × String)) (ns : List Nat)
    (d b un c : Edges) (u v : Nat) (t : String)
    (ht : t ∈ [directedName, bidirectedName, undirectedName, circleName]) :
    hasEdgeB (insertAll (mkGraph ns d b un c) L) u v t = true ↔
      (hasEdgeB (mkGraph ns d b un c) u v t = true ∨ ∃ e ∈ L, insHitsP e u v t) := by
  induction L generalizing ns d b un c with
  | nil => simp [insertAll]
  | cons e L ih =>
    have hshape := addEdge_mkGraph ns d b un c e.1 e.2.1 e.2.2
    rw [show insertAll (mkGraph ns d b un c) (e :: L) =
      insertAll (addEdge (mkGraph ns d b un c) e.1 e.2.1 e.2.2) L from rfl]
    rw [hshape, ih, ← hshape, addEdge_hasEdge_iff ns d b un c e.1 e.2.1 u v e.2.2 t ht]
    simp only [List.mem_cons]
    constructor
    · rintro ((hb | hhit) | ⟨e', he', hhit⟩)
      · exact Or.inl hb
      · exact Or.inr ⟨e, Or.inl rfl, hhit⟩
      · exact Or.inr ⟨e', Or.inr he', hhit⟩
    · rintro (hb | ⟨e', he' | he', hhit⟩)
      · exact Or.inl (Or.inl hb)
      · exact Or.inl (Or.inr (he' ▸ hhit))
      · exact Or.inr ⟨e', he', hhit⟩

theorem insertAll_nodes_iff (L : List (Nat × Nat × String)) (g : MixedGraph) (z : Nat) :
    z ∈ (insertAll g L).nodes ↔ z ∈ g.nodes ∨ ∃ e ∈ L, z = e.1 ∨ z = e.2.1 := by
  induction L generalizing g with
  | nil => simp [insertAll]
  | cons e L ih =>
    rw [show insertAll g (e :: L) = insertAll (addEdge g e.1 e.2.1 e.2.2) L from rfl]
    rw [ih, addEdge_nodes_mem]
    simp only [List.mem_cons]
    constructor
    · rintro ((hb | hz | hz) | ⟨e', he', hz⟩)
      · exact Or.inl hb
      · exact Or.inr ⟨e, Or.inl rfl, Or.inl hz⟩
      · exact Or.inr ⟨e, Or.inl rfl, Or.inr hz⟩
      · exact Or.inr ⟨e', Or.inr he', hz⟩
    · rintro (hb | ⟨e', he' | he', hz⟩)
      · exact Or.inl (Or.inl hb)
      · exact Or.inl (he' ▸ Or.inr hz)
      · exact Or.inr ⟨e', he', hz⟩

theorem foldIns_hasEdge (ps : List (Nat × Nat)) (arr : CArr) (arrIdx : List Nat)
    (ns : List Nat) (d b un c : Edges) (u v : Nat) (t : String)
    (ht : t ∈ [directedName, bidirectedName, undirectedName, circleName]) :
    hasEdgeB (ps.foldl (fun g p => insertAll g (pairIns arr arrIdx p)) (mkGraph ns d b un c))
        u v t = true ↔
      (hasEdgeB (mkGraph ns d b un c) u v t = true ∨
        ∃ p ∈ ps, ∃ e ∈ pairIns arr arrIdx p, insHitsP e u v t) := by
  induction ps generalizing ns d b un c with
  | nil => simp
  | cons q ps ih =>
    obtain ⟨ns2, d2, b2, un2, c2, hshape⟩ :=
      insertAll_shape (pairIns arr arrIdx q) ns d b un c
    rw [List.foldl_cons, hshape, ih, ← hshape,
      insertAll_hasEdge_iff (pairIns arr arrIdx q) ns d b un c u v t ht]
    simp only [List.mem_cons]
    constructor
    · rintro ((hb | ⟨e, he, hhit⟩) | ⟨p, hp, he⟩)
      · exact Or.inl hb
      · exact Or.inr ⟨q, Or.inl rfl, e, he, hhit⟩
      · exact Or.inr ⟨p, Or.inr hp, he⟩
    · rintro (hb | ⟨p, hp | hp, he⟩)
      · exact Or.inl (Or.inl hb)
      · exact Or.inl (Or.inr (hp ▸ he))
      · exact Or.inr ⟨p, hp, he⟩

theorem foldIns_nodes (ps : List (Nat × Nat)) (arr : CArr) (arrIdx : List Nat)
    (g : MixedGraph) (z : Nat) :
    z ∈ ((ps.foldl (fun g p => insertAll g (pairIns arr arrIdx p)) g).nodes) ↔
      z ∈ g.nodes ∨ ∃ p ∈ ps, ∃ e ∈ pairIns arr arrIdx p, (z = e.1 ∨ z = e.2.1) := by
  induction ps generalizing g with
  | nil => simp
  | cons q ps ih =>
    rw [List.foldl_cons, ih, insertAll_nodes_iff]
    simp only [List.mem_cons]
    constructor
    · rintro ((hb | ⟨e, he, hz⟩) | ⟨p, hp, he⟩)
      · exact Or.inl hb
      · exact Or.inr ⟨q, Or.inl rfl, e, he, hz⟩
      · exact Or.inr ⟨p, Or.inr hp, he⟩
    · rintro (hb | ⟨p, hp | hp, he⟩)
      · exact Or.inl (Or.inl hb)
      · exact Or.inl (Or.inr (hp ▸ he))
      · exact Or.inr ⟨p, hp, he⟩

theorem mem_triuPairs (n : Nat) (p : Nat × Nat) :
    p ∈ triuPairs n ↔ p.1 < p.2 ∧ p.2 < n := by
  obtain ⟨i, j⟩ := p
  simp only [triuPairs, List.mem_flatMap, List.mem_map, List.mem_range]
  constructor
  · rintro ⟨a, ha, b, hb, heq⟩
    rw [List.mem_filter, List.mem_range] at hb
    cases heq
    exact ⟨by simpa using hb.2, hb.1⟩
  · rintro ⟨hij, hjn⟩
    refine ⟨i, Nat.lt_trans hij hjn, j, ?_, rfl⟩
    rw [List.mem_filter, List.mem_range]
    exact ⟨hjn, by simpa using hij⟩

theorem ofValue_value (ep : CLearnEndpoint) : ofValue ep.value = some ep := by
  cases ep <;> rfl

theorem indexOf_getD (ns : List Nat) (hnd : ns.Nodup) (i : Nat) (hi : i < ns.length) :
    ns.indexOf (ns.getD i 0) = i := by
  rw [List.getD_eq_getElem _ _ hi]
  exact List.indexOf_getElem hnd i hi

theorem getD_mem (ns : List Nat) (i : Nat) (hi : i < ns.length) : ns.getD i 0 ∈ ns := by
  rw [List.getD_eq_getElem _ _ hi]
  exact List.getElem_mem hi

theorem getD_inj (ns : List Nat) (hnd : ns.Nodup) (i j : Nat) (hi : i < ns.length)
    (hj : j < ns.length) (h : ns.getD i 0 = ns.getD j 0) : i = j := by
  rw [← indexOf_getD ns hnd i hi, ← indexOf_getD ns hnd j hj, h]

theorem hasEdgeB_empty (ns : List Nat) (u v : Nat) (t : String)
    (ht : t ∈ [directedName, bidirectedName, undirectedName, circleName]) :
    hasEdgeB (mkGraph ns [] [] [] []) u v t = false := by
  simp only [List.mem_cons, List.not_mem_nil, or_false] at ht
  rcases ht with rfl | rfl | rfl | rfl
  · rw [hasEdgeB_mk_directed]
    simp
  · rw [hasEdgeB_mk_bidirected]
    simp
  · rw [hasEdgeB_mk_undirected]
    simp
  · rw [hasEdgeB_mk_circle]
    simp

theorem decoded_hasEdge_char (arr : CArr) (ns : List Nat) (n : Nat) (hn : ns.length = n)
    (hnd : ns.Nodup) (i j : Nat) (hij : i < j) (hjn : j < n) (q r : Nat)
    (hqr : (q = ns.getD i 0 ∧ r = ns.getD j 0) ∨ (q = ns.getD j 0 ∧ r = ns.getD i 0))
    (t : String) (ht : t ∈ [directedName, bidirectedName, undirectedName, circleName]) :
    hasEdgeB (decodeFold arr ns n mkEmptyVariant) q r t = true ↔
      ∃ e ∈ pairIns arr ns (i, j), insHitsP e q r t := by
  unfold decodeFold mkEmptyVariant
  rw [foldIns_hasEdge (triuPairs n) arr ns [] [] [] [] [] q r t ht,
    hasEdgeB_empty [] q r t ht]
  simp only [Bool.false_eq_true, false_or]
  constructor
  · rintro ⟨p, hp, e, he, hhit⟩
    obtain ⟨hp1, hp2⟩ := (mem_triuPairs n p).mp hp
    obtain ⟨hends, -⟩ := decodePair_mem _ _ _ _ e he
    have hq2 := hhit.2
    have key : (ns.getD p.1 0 = ns.getD i 0 ∧ ns.getD p.2 0 = ns.getD j 0) ∨
        (ns.getD p.1 0 = ns.getD j 0 ∧ ns.getD p.2 0 = ns.getD i 0) := by
      rcases hqr with ⟨hq, hr⟩ | ⟨hq, hr⟩ <;>
        rcases hends with ⟨he1, he2⟩ | ⟨he1, he2⟩ <;>
          rcases hq2 with ⟨hz1, hz2⟩ | ⟨-, hz1, hz2⟩ <;>
            omega
    have hi : i < n := Nat.lt_trans hij hjn
    rcases key with ⟨k1, k2⟩ | ⟨k1, k2⟩
    · have e1 : p.1 = i := getD_inj ns hnd p.1 i (by omega) (by omega) k1
      have e2 : p.2 = j := getD_inj ns hnd p.2 j (by omega) (by omega) k2
      refine ⟨e, ?_, hhit⟩
      have : p = (i, j) := Prod.ext e1 e2
      rw [← this]
      exact he
    · have e1 : p.1 = j := getD_inj ns hnd p.1 j (by omega) (by omega) k1
      have e2 : p.2 = i := getD_inj ns hnd p.2 i (by omega) (by omega) k2
      omega
  · rintro ⟨e, he, hhit⟩
    exact ⟨(i, j), (mem_triuPairs n (i, j)).mpr ⟨hij, hjn⟩, e, he, hhit⟩

theorem decoded_hasEdge_imp_nodes (arr : CArr) (ns : List Nat) (n : Nat) (q r : Nat)
    (t : String) (ht : t ∈ [directedName, bidirectedName, undirectedName, circleName])
    (h : hasEdgeB (decodeFold arr ns n mkEmptyVariant) q r t = true) :
    q ∈ (decodeFold arr ns n mkEmptyVariant).nodes ∧
      r ∈ (decodeFold arr ns n mkEmptyVariant).nodes := by
  unfold decodeFold mkEmptyVariant at h ⊢
  rw [foldIns_hasEdge (triuPairs n) arr ns [] [] [] [] [] q r t ht,
    hasEdgeB_empty [] q r t ht] at h
  simp only [Bool.false_eq_true, false_or] at h
  obtain ⟨p, hp, e, he, hq2⟩ := h
  obtain ⟨-, hq2⟩ := hq2
  rw [foldIns_nodes, foldIns_nodes]
  rcases hq2 with ⟨hz1, hz2⟩ | ⟨-, hz1, hz2⟩
  · exact ⟨Or.inr ⟨p, hp, e, he, Or.inl hz1⟩, Or.inr ⟨p, hp, e, he, Or.inr hz2⟩⟩
  · exact ⟨Or.inr ⟨p, hp, e, he, Or.inr hz1⟩, Or.inr ⟨p, hp, e, he, Or.inl hz2⟩⟩

theorem decoded_nodes_sub (arr : CArr) (ns : List Nat) (n : Nat) (hn : ns.length = n)
    (z : Nat) (hz : z ∈ (decodeFold arr ns n mkEmptyVariant).nodes) : z ∈ ns := by
  unfold decodeFold mkEmptyVariant at hz
  rw [foldIns_nodes] at hz
  rcases hz with hz | ⟨p, hp, e, he, hz⟩
  · simp [mkGraph] at hz
  · obtain ⟨hp1, hp2⟩ := (mem_triuPairs n p).mp hp
    obtain ⟨hends, -⟩ := decodePair_mem _ _ _ _ e he
    have h1 : ns.getD p.1 0 ∈ ns := getD_mem ns p.1 (by omega)
    have h2 : ns.getD p.2 0 ∈ ns := getD_mem ns p.2 (by omega)
    rcases hends with ⟨he1, he2⟩ | ⟨he1, he2⟩ <;> rcases hz with rfl | rfl
    · exact he1 ▸ h1
    · exact he2 ▸ h2
    · exact he1 ▸ h2
    · exact he2 ▸ h1

theorem decoded_self_false (arr : CArr) (ns : List Nat) (n : Nat) (hn : ns.length = n)
    (hnd : ns.Nodup) (z : Nat) (t : String)
    (ht : t ∈ [directedName, bidirectedName, undirectedName, circleName]) :
    hasEdgeB (decodeFold arr ns n mkEmptyVariant) z z t = false := by
  cases hb : hasEdgeB (decodeFold arr ns n mkEmptyVariant) z z t with
  | false => rfl
  | true =>
    exfalso
    unfold decodeFold mkEmptyVariant at hb
    rw [foldIns_hasEdge (triuPairs n) arr ns [] [] [] [] [] z z t ht,
      hasEdgeB_empty [] z z t ht] at hb
    simp only [Bool.false_eq_true, false_or] at hb
    obtain ⟨p, hp, e, he, hhit⟩ := hb
    obtain ⟨hp1, hp2⟩ := (mem_triuPairs n p).mp hp
    obtain ⟨hends, -⟩ := decodePair_mem _ _ _ _ e he
    obtain ⟨-, hq2⟩ := hhit
    have heq : e.1 = e.2.1 := by
      rcases hq2 with ⟨hz1, hz2⟩ | ⟨-, hz1, hz2⟩
      · exact hz1.symm.trans hz2
      · exact hz2.symm.trans hz1
    have : p.1 = p.2 := by
      rcases hends with ⟨he1, he2⟩ | ⟨he1, he2⟩
      · exact getD_inj ns hnd p.1 p.2 (by omega) (by omega) (he1.symm.trans (heq.trans he2))
      · exact (getD_inj ns hnd p.2 p.1 (by omega) (by omega)
          (he1.symm.trans (heq.trans he2))).symm
    omega

theorem entriesValid_of_encode (G : MixedGraph) (arr : CArr) (idx : List Nat)
    (henc : graphToClearnArr G = .ok (arr, idx)) : entriesValid arr = true := by
  obtain ⟨-, -, hent⟩ := encode_shape G arr idx henc
  unfold entriesValid
  rw [List.all_eq_true]
  intro i hi
  rw [List.all_eq_true]
  intro j hj
  obtain ⟨ep, hep⟩ := hent i j
  rw [hep, ofValue_value]
  rfl

theorem decode_ok_pag (arr : CArr) (arrIdx : List Nat) (hsq : arr.rows = arr.cols)
    (hlen : arrIdx.length = arr.rows) (hvalid : entriesValid arr = true) :
    clearnArrToGraph arr arrIdx "pag" = .ok (decodeFold arr arrIdx arr.rows mkEmptyVariant) := by
  unfold clearnArrToGraph
  rw [if_neg (not_not_intro hsq), if_neg (not_not_intro hlen), if_neg (not_not_intro hvalid)]
  rfl

theorem decode_ok_admg (arr : CArr) (arrIdx : List Nat) (hsq : arr.rows = arr.cols)
    (hlen : arrIdx.length = arr.rows) (hvalid : entriesValid arr = true) :
    clearnArrToGraph arr arrIdx "admg" = .ok (decodeFold arr arrIdx arr.rows mkEmptyVariant) := by
  unfold clearnArrToGraph
  rw [if_neg (not_not_intro hsq), if_neg (not_not_intro hlen), if_neg (not_not_intro hvalid)]
  rfl

/-! ### Claim C7: decoder shape validation -/

/-- Claim C7: for every decoder input, a non-square matrix or a node-order
list whose length differs from the matrix dimension makes the decoder raise
an error before constructing any graph. -/
theorem claim_C7 (arr : CArr) (arrIdx : List Nat) (graphType : String)
    (h : arr.rows ≠ arr.cols ∨ arrIdx.length ≠ arr.rows) :
    ∃ e, clearnArrToGraph arr arrIdx graphType = .error e := by
  unfold clearnArrToGraph
  by_cases hsq : arr.rows ≠ arr.cols
  · exact ⟨_, by rw [if_pos hsq]⟩
  · have hlen : arrIdx.length ≠ arr.rows := by tauto
    exact ⟨_, by rw [if_neg hsq, if_pos hlen]⟩

/-- Witness for C7: a 3 by 3 matrix with a 2-element node-order list. -/
theorem claim_C7_witness :
    (arr3.rows ≠ arr3.cols ∨ ([0, 1] : List Nat).length ≠ arr3.rows) ∧
      ∃ e, clearnArrToGraph arr3 [0, 1] "admg" = .error e :=
  ⟨Or.inr (by decide), claim_C7 arr3 [0, 1] "admg" (Or.inr (by decide))⟩

/-! ### Claim C8: decoder endpoint-code validation -/

/-- Claim C8: a square matrix containing an unrecognized endpoint code
anywhere makes the decoder raise; the validation covers every cell. -/
theorem claim_C8 (arr : CArr) (arrIdx : List Nat) (graphType : String)
    (hsq : arr.rows = arr.cols) (hlen : arrIdx.length = arr.rows)
    (hbad : ∃ i, i < arr.rows ∧ ∃ j, j < arr.rows ∧ ofValue (arr.entry i j) = none) :
    clearnArrToGraph arr arrIdx graphType =
      .error "Some entries of array are not causal-learn specified." := by
  unfold clearnArrToGraph
  rw [if_neg (not_not_intro hsq), if_neg (not_not_intro hlen), if_pos]
  intro hvalid
  obtain ⟨i, hi, j, hj, hbadij⟩ := hbad
  have h1 := List.all_eq_true.mp hvalid i (List.mem_range.mpr hi)
  have h2 := List.all_eq_true.mp h1 j (List.mem_range.mpr hj)
  rw [hbadij] at h2
  simp at h2

/-- Witness for C8: a square matrix holding the unrecognized value 7. -/
theorem claim_C8_witness :
    (arrBad.rows = arrBad.cols ∧ ([0, 1] : List Nat).length = arrBad.rows ∧
      ∃ i, i < arrBad.rows ∧ ∃ j, j < arrBad.rows ∧ ofValue (arrBad.entry i j) = none) ∧
    clearnArrToGraph arrBad [0, 1] "admg" =
      .error "Some entries of array are not causal-learn specified." :=
  ⟨⟨rfl, rfl, 0, by decide, 1, by decide, by decide⟩,
   claim_C8 arrBad [0, 1] "admg" rfl rfl ⟨0, by decide, 1, by decide, by decide⟩⟩

/-! ### Claim C10: the dag variant equals the admg variant plus conversion -/

/-- Claim C10: decoding with variant tag `dag` equals decoding with `admg`
followed by `to_directed`; both build the same intermediate mixed-edge graph. -/
theorem claim_C10 (arr : CArr) (arrIdx : List Nat) :
    clearnArrToGraph arr arrIdx "dag" =
      (clearnArrToGraph arr arrIdx "admg").map toDirected := by
  unfold clearnArrToGraph
  by_cases hsq : arr.rows ≠ arr.cols
  · rw [if_pos hsq, if_pos hsq]; rfl
  · rw [if_neg hsq, if_neg hsq]
    by_cases hlen : arrIdx.length ≠ arr.rows
    · rw [if_pos hlen, if_pos hlen]; rfl
    · rw [if_neg hlen, if_neg hlen]
      by_cases hv : ¬ entriesValid arr
      · rw [if_pos hv, if_pos hv]; rfl
      · rw [if_neg hv, if_neg hv]
        simp [emptyGraphFor, Except.map]

/-! ### Claim C9: silent pass-through in the circle-decoding branch -/

/-- Claim C9: when one side of a pair holds the circle code and the opposing
side holds the none code (which matches no qualifying case), the decoder
emits only the circle side's edge, emits nothing for the opposing side, and
decoding completes without an error. -/
theorem claim_C9 (u v : Nat) (arr : CArr) (arrIdx : List Nat)
    (hsq : arr.rows = arr.cols) (hlen : arrIdx.length = arr.rows)
    (hvalid : entriesValid arr = true) :
    decodePair .circle .null u v = [(v, u, circleName)] ∧
    decodePair .null .circle u v = [(u, v, circleName)] ∧
    ∃ H, clearnArrToGraph arr arrIdx "pag" = .ok H := by
  refine ⟨rfl, rfl, ?_⟩
  unfold clearnArrToGraph
  rw [if_neg (not_not_intro hsq), if_neg (not_not_intro hlen),
    if_neg (not_not_intro hvalid)]
  exact ⟨_, rfl⟩

/-! ### Per-configuration bundle for the round trip -/

/-- For every representable pair configuration, either the pair is not
adjacent (and carries no edge of any recognized type), or the encoder
computes stable endpoint codes in both iteration directions and the edges
that the decoder would emit from those codes answer exactly the same
presence queries as the original graph. -/
theorem pairRep_main (ns : List Nat) (d b un c : Edges) (u v : Nat) (huv : u ≠ v)
    (hrep : pairRepresentable d b un c u v) :
    (neighborb (mkGraph ns d b un c) u v = false ∧
      neighborb (mkGraph ns d b un c) v u = false ∧
      ∀ t ∈ [directedName, bidirectedName, undirectedName, circleName],
        hasEdgeB (mkGraph ns d b un c) u v t = false) ∨
    ∃ a1 a2 : CLearnEndpoint,
      endpointsFor (mkGraph ns d b un c) u v = .ok (a1, a2) ∧
      endpointsFor (mkGraph ns d b un c) v u = .ok (a2, a1) ∧
      (neighborb (mkGraph ns d b un c) u v = true ∨
        neighborb (mkGraph ns d b un c) v u = true) ∧
      (∀ t ∈ [directedName, bidirectedName, undirectedName, circleName],
        (hasEdgeB (mkGraph ns d b un c) u v t = true ↔
          ∃ e ∈ decodePair a1 a2 u v, insHitsP e u v t)) ∧
      (∀ t ∈ [directedName, bidirectedName, undirectedName, circleName],
        (hasEdgeB (mkGraph ns d b un c) u v t = true ↔
          ∃ e ∈ decodePair a2 a1 v u, insHitsP e u v t)) := by
  have hvu : v ≠ u := Ne.symm huv
  rcases hrep with h | h | h | h | h | h | h | h | h | h | h | h | h
  · obtain ⟨h1, h2, h3, h4, h5, h6, h7, h8⟩ := h
    obtain ⟨n1, n2⟩ := cfg_none_facts ns d b un c u v h1 h2 h3 h4 h5 h6 h7 h8
    refine Or.inl ⟨n1, n2, ?_⟩
    intro t ht
    simp only [List.mem_cons, List.not_mem_nil, or_false] at ht
    rcases ht with rfl | rfl | rfl | rfl <;>
      simp [hasEdgeB_mk_directed, hasEdgeB_mk_bidirected, hasEdgeB_mk_undirected,
        hasEdgeB_mk_circle, h1, h2, h3, h4, h5, h6, h7, h8]
  · obtain ⟨hd1, hd2, hb1, hb2, hu1, hu2, hc1, hc2⟩ := h
    obtain ⟨hf1, hf2, hnb⟩ := cfg_dir_facts ns d b un c u v hd1 hd2 hb1 hb2 hu1 hu2 hc1 hc2
    refine Or.inr ⟨.tail, .arrow, hf1, hf2, Or.inl hnb, ?_, ?_⟩
    all_goals
      intro t ht
      simp only [List.mem_cons, List.not_mem_nil, or_false] at ht
      rcases ht with rfl | rfl | rfl | rfl <;>
        simp [decodePair, insHitsP, hasEdgeB_mk_directed, hasEdgeB_mk_bidirected,
          hasEdgeB_mk_undirected, hasEdgeB_mk_circle,
          directedName, bidirectedName, undirectedName, circleName,
          hd1, hd2, hb1, hb2, hu1, hu2, hc1, hc2, huv, hvu]
  · obtain ⟨hd1, hd2, hb1, hb2, hu1, hu2, hc1, hc2⟩ := h
    obtain ⟨hf1, hf2, hnb⟩ := cfg_dir_facts ns d b un c v u hd2 hd1 hb2 hb1 hu2 hu1 hc2 hc1
    refine Or.inr ⟨.arrow, .tail, hf2, hf1, Or.inr hnb, ?_, ?_⟩
    all_goals
      intro t ht
      simp only [List.mem_cons, List.not_mem_nil, or_false] at ht
      rcases ht with rfl | rfl | rfl | rfl <;>
        simp [decodePair, insHitsP, hasEdgeB_mk_directed, hasEdgeB_mk_bidirected,
          hasEdgeB_mk_undirected, hasEdgeB_mk_circle,
          directedName, bidirectedName, undirectedName, circleName,
          hd1, hd2, hb1, hb2, hu1, hu2, hc1, hc2, huv, hvu]
  · obtain ⟨hd1, hd2, hb, hu1, hu2, hc1, hc2⟩ := h
    obtain ⟨hf1, hf2, hnb⟩ := cfg_bi_facts ns d b un c u v hd1 hd2 hb hu1 hu2 hc1 hc2
    refine Or.inr ⟨.arrow, .arrow, hf1, hf2, Or.inl hnb, ?_, ?_⟩
    all_goals
      intro t ht
      simp only [List.mem_cons, List.not_mem_nil, or_false] at ht
      rcases ht with rfl | rfl | rfl | rfl <;>
        simp [decodePair, insHitsP, hasEdgeB_mk_directed, hasEdgeB_mk_bidirected,
          hasEdgeB_mk_undirected, hasEdgeB_mk_circle,
          directedName, bidirectedName, undirectedName, circleName,
          hd1, hd2, hb, hu1, hu2, hc1, hc2, huv, hvu]
  · obtain ⟨hd1, hd2, hb1, hb2, hu, hc1, hc2⟩ := h
    obtain ⟨hf1, hf2, hnb⟩ := cfg_un_facts ns d b un c u v hd1 hd2 hb1 hb2 hu hc1 hc2
    refine Or.inr ⟨.tail, .tail, hf1, hf2, Or.inl hnb, ?_, ?_⟩
    all_goals
      intro t ht
      simp only [List.mem_cons, List.not_mem_nil, or_false] at ht
      rcases ht with rfl | rfl | rfl | rfl <;>
        simp [decodePair, insHitsP, hasEdgeB_mk_directed, hasEdgeB_mk_bidirected,
          hasEdgeB_mk_undirected, hasEdgeB_mk_circle,
          directedName, bidirectedName, undirectedName, circleName,
          hd1, hd2, hb1, hb2, hu, hc1, hc2, huv, hvu]
  · obtain ⟨hd1, hd2, hb1, hb2, hu1, hu2, hc1, hc2⟩ := h
    obtain ⟨hf1, hf2, hnb⟩ := cfg_oo_facts ns d b un c u v hd1 hd2 hb1 hb2 hu1 hu2 hc1 hc2
    refine Or.inr ⟨.circle, .circle, hf1, hf2, Or.inl hnb, ?_, ?_⟩
    all_goals
      intro t ht
      simp only [List.mem_cons, List.not_mem_nil, or_false] at ht
      rcases ht with rfl | rfl | rfl | rfl <;>
        simp [decodePair, insHitsP, hasEdgeB_mk_directed, hasEdgeB_mk_bidirected,
          hasEdgeB_mk_undirected, hasEdgeB_mk_circle,
          directedName, bidirectedName, undirectedName, circleName,
          hd1, hd2, hb1, hb2, hu1, hu2, hc1, hc2, huv, hvu]
  · obtain ⟨hd1, hd2, hb, hu1, hu2, hc1, hc2⟩ := h
    obtain ⟨hf1, hf2, hnb⟩ := cfg_dirbi_facts ns d b un c u v hd1 hd2 hb hu1 hu2 hc1 hc2
    refine Or.inr ⟨.tailAndArrow, .arrowAndArrow, hf1, hf2, Or.inl hnb, ?_, ?_⟩
    all_goals
      intro t ht
      simp only [List.mem_cons, List.not_mem_nil, or_false] at ht
      rcases ht with rfl | rfl | rfl | rfl <;>
        simp [decodePair, insHitsP, hasEdgeB_mk_directed, hasEdgeB_mk_bidirected,
          hasEdgeB_mk_undirected, hasEdgeB_mk_circle,
          directedName, bidirectedName, undirectedName, circleName,
          hd1, hd2, hb, hu1, hu2, hc1, hc2, huv, hvu]
  · obtain ⟨hd1, hd2, hb, hu1, hu2, hc1, hc2⟩ := h
    obtain ⟨hf1, hf2, hnb⟩ := cfg_dirbi_facts ns d b un c v u hd2 hd1 hb.symm hu2 hu1 hc2 hc1
    refine Or.inr ⟨.arrowAndArrow, .tailAndArrow, hf2, hf1, Or.inr hnb, ?_, ?_⟩
    all_goals
      intro t ht
      simp only [List.mem_cons, List.not_mem_nil, or_false] at ht
      rcases ht with rfl | rfl | rfl | rfl <;>
        simp [decodePair, insHitsP, hasEdgeB_mk_directed, hasEdgeB_mk_bidirected,
          hasEdgeB_mk_undirected, hasEdgeB_mk_circle,
          directedName, bidirectedName, undirectedName, circleName,
          hd1, hd2, hb, hu1, hu2, hc1, hc2, huv, hvu]
  · obtain ⟨hd1, hd2, hb1, hb2, hu, hc1, hc2⟩ := h
    obtain ⟨hf1, hf2, hnb⟩ := cfg_dirun_facts ns d b un c u v hd1 hd2 hb1 hb2 hu hc1 hc2
    refine Or.inr ⟨.tailAndTail, .tailAndArrow, hf1, hf2, Or.inl hnb, ?_, ?_⟩
    all_goals
      intro t ht
      simp only [List.mem_cons, List.not_mem_nil, or_false] at ht
      rcases ht with rfl | rfl | rfl | rfl <;>
        simp [decodePair, insHitsP, hasEdgeB_mk_directed, hasEdgeB_mk_bidirected,
          hasEdgeB_mk_undirected, hasEdgeB_mk_circle,
          directedName, bidirectedName, undirectedName, circleName,
          hd1, hd2, hb1, hb2, hu, hc1, hc2, huv, hvu]
  · obtain ⟨hd1, hd2, hb1, hb2, hu, hc1, hc2⟩ := h
    obtain ⟨hf1, hf2, hnb⟩ := cfg_dirun_facts ns d b un c v u hd2 hd1 hb2 hb1 hu.symm hc2 hc1
    refine Or.inr ⟨.tailAndArrow, .tailAndTail, hf2, hf1, Or.inr hnb, ?_, ?_⟩
    all_goals
      intro t ht
      simp only [List.mem_cons, List.not_mem_nil, or_false] at ht
      rcases ht with rfl | rfl | rfl | rfl <;>
        simp [decodePair, insHitsP, hasEdgeB_mk_directed, hasEdgeB_mk_bidirected,
          hasEdgeB_mk_undirected, hasEdgeB_mk_circle,
          directedName, bidirectedName, undirectedName, circleName,
          hd1, hd2, hb1, hb2, hu, hc1, hc2, huv, hvu]
  · obtain ⟨hd1, hd2, hb, hu, hc1, hc2⟩ := h
    obtain ⟨hf1, hf2, hnb⟩ := cfg_biun_facts ns d b un c u v hd1 hd2 hb hu hc1 hc2
    refine Or.inr ⟨.tailAndArrow, .tailAndArrow, hf1, hf2, Or.inl hnb, ?_, ?_⟩
    all_goals
      intro t ht
      simp only [List.mem_cons, List.not_mem_nil, or_false] at ht
      rcases ht with rfl | rfl | rfl | rfl <;>
        simp [decodePair, insHitsP, hasEdgeB_mk_directed, hasEdgeB_mk_bidirected,
          hasEdgeB_mk_undirected, hasEdgeB_mk_circle,
          directedName, bidirectedName, undirectedName, circleName,
          hd1, hd2, hb, hu, hc1, hc2, huv, hvu]
  · obtain ⟨hd1, hd2, hb1, hb2, hu, hc1, hc2⟩ := h
    obtain ⟨hf1, hf2, hnb⟩ := cfg_circun_facts ns d b un c u v hd1 hd2 hb1 hb2 hu hc1 hc2
    refine Or.inr ⟨.tail, .circle, hf1, hf2, Or.inl hnb, ?_, ?_⟩
    all_goals
      intro t ht
      simp only [List.mem_cons, List.not_mem_nil, or_false] at ht
      rcases ht with rfl | rfl | rfl | rfl <;>
        simp [decodePair, insHitsP, hasEdgeB_mk_directed, hasEdgeB_mk_bidirected,
          hasEdgeB_mk_undirected, hasEdgeB_mk_circle,
          directedName, bidirectedName, undirectedName, circleName,
          hd1, hd2, hb1, hb2, hu, hc1, hc2, huv, hvu]
  · obtain ⟨hd1, hd2, hb1, hb2, hu, hc1, hc2⟩ := h
    obtain ⟨hf1, hf2, hnb⟩ := cfg_circun_facts ns d b un c v u hd2 hd1 hb2 hb1 hu.symm hc2 hc1
    refine Or.inr ⟨.circle, .tail, hf2, hf1, Or.inr hnb, ?_, ?_⟩
    all_goals
      intro t ht
      simp only [List.mem_cons, List.not_mem_nil, or_false] at ht
      rcases ht with rfl | rfl | rfl | rfl <;>
        simp [decodePair, insHitsP, hasEdgeB_mk_directed, hasEdgeB_mk_bidirected,
          hasEdgeB_mk_undirected, hasEdgeB_mk_circle,
          directedName, bidirectedName, undirectedName, circleName,
          hd1, hd2, hb1, hb2, hu, hc1, hc2, huv, hvu]

/-! ### Claim C1: the single directed edge scenario -/

/-- Counterexample to claim C1 as stated: for the graph with the single
directed edge from node 0 (row index 0) to node 1 (row index 1), the encoder
writes the tail code, not the arrow code, into `matrix[u_idx][v_idx]`. -/
theorem claim_C1_counterexample :
    encodeEntry cexDirGraph 0 1 = .ok CLearnEndpoint.tail.value ∧
    encodeEntry cexDirGraph 1 0 = .ok CLearnEndpoint.arrow.value ∧
    CLearnEndpoint.tail.value ≠ CLearnEndpoint.arrow.value :=
  ⟨rfl, rfl, by decide⟩

theorem getD_indexOf (ns : List Nat) (u : Nat) (hu : u ∈ ns) :
    ns.getD (ns.indexOf u) 0 = u := by
  rw [List.getD_eq_getElem _ _ (List.indexOf_lt_length.mpr hu)]
  exact List.getElem_indexOf (List.indexOf_lt_length.mpr hu)

/-- Claim C1 (amended): for every well-formed graph whose only edge between
`u` and `v` is the single directed edge `u` to `v`, and whose encoding
succeeds, the encoder writes the tail code into `matrix[u_idx][v_idx]` and
the arrow code into `matrix[v_idx][u_idx]` (the row index carries the
endpoint at the row's node), and decoding that matrix with the `admg`
variant yields a graph whose only edge between `u` and `v` is one directed
edge from `u` to `v`. -/
theorem claim_C1_amended (ns : List Nat) (d b un c : Edges) (u v : Nat)
    (hnd : ns.Nodup) (hu : u ∈ ns) (hv : v ∈ ns) (huv : u ≠ v)
    (hd1 : (u, v) ∈ d) (hd2 : (v, u) ∉ d)
    (hb1 : (u, v) ∉ b) (hb2 : (v, u) ∉ b)
    (hu1 : (u, v) ∉ un) (hu2 : (v, u) ∉ un)
    (hc1 : (u, v) ∉ c) (hc2 : (v, u) ∉ c)
    (arr : CArr) (idx : List Nat)
    (henc : graphToClearnArr (mkGraph ns d b un c) = .ok (arr, idx)) :
    arr.entry (ns.indexOf u) (ns.indexOf v) = CLearnEndpoint.tail.value ∧
    arr.entry (ns.indexOf v) (ns.indexOf u) = CLearnEndpoint.arrow.value ∧
    ∃ H, clearnArrToGraph arr idx "admg" = .ok H ∧
      hasEdgeB H u v directedName = true ∧ hasEdgeB H v u directedName = false ∧
      hasEdgeB H u v bidirectedName = false ∧ hasEdgeB H u v undirectedName = false ∧
      hasEdgeB H u v circleName = false ∧ hasEdgeB H v u circleName = false := by
  obtain ⟨hf1, hf2, hnb⟩ := cfg_dir_facts ns d b un c u v hd1 hd2 hb1 hb2 hu1 hu2 hc1 hc2
  have hidx : idx = ns := (encode_destruct (mkGraph ns d b un c) arr idx henc).1
  rw [hidx]
  rw [hidx] at henc
  obtain ⟨hrows, hcols, -⟩ := encode_shape (mkGraph ns d b un c) arr ns henc
  have hvalid := entriesValid_of_encode (mkGraph ns d b un c) arr ns henc
  have e1 : arr.entry (ns.indexOf u) (ns.indexOf v) = CLearnEndpoint.tail.value :=
    encode_entry (mkGraph ns d b un c) hnd u v hu hv huv .tail .arrow hf1 hf2
      (Or.inl hnb) arr ns henc
  have e2 : arr.entry (ns.indexOf v) (ns.indexOf u) = CLearnEndpoint.arrow.value :=
    encode_entry (mkGraph ns d b un c) hnd v u hv hu (Ne.symm huv) .arrow .tail hf2 hf1
      (Or.inr hnb) arr ns henc
  refine ⟨e1, e2, decodeFold arr ns arr.rows mkEmptyVariant,
    decode_ok_admg arr ns (hrows.trans hcols.symm) (hrows ▸ rfl) hvalid, ?_⟩
  have hE1 : entryEndpoint arr (ns.indexOf u) (ns.indexOf v) = .tail := by
    unfold entryEndpoint
    rw [e1, ofValue_value]
    rfl
  have hE2 : entryEndpoint arr (ns.indexOf v) (ns.indexOf u) = .arrow := by
    unfold entryEndpoint
    rw [e2, ofValue_value]
    rfl
  have hgu : ns.getD (ns.indexOf u) 0 = u := getD_indexOf ns u hu
  have hgv : ns.getD (ns.indexOf v) 0 = v := getD_indexOf ns v hv
  have hlu : ns.indexOf u < arr.rows := hrows ▸ List.indexOf_lt_length.mpr hu
  have hlv : ns.indexOf v < arr.rows := hrows ▸ List.indexOf_lt_length.mpr hv
  have hne : ns.indexOf u ≠ ns.indexOf v := fun h => huv ((List.indexOf_inj hu hv).mp h)
  have hn : ns.length = arr.rows := hrows.symm
  have hvu := Ne.symm huv
  rcases Nat.lt_or_ge (ns.indexOf u) (ns.indexOf v) with hlt | hge
  · have hins : pairIns arr ns (ns.indexOf u, ns.indexOf v) = [(u, v, directedName)] := by
      unfold pairIns
      rw [hE1, hE2, hgu, hgv]
      rfl
    have hchar := fun (q r : Nat) hqr t ht =>
      decoded_hasEdge_char arr ns arr.rows hn hnd (ns.indexOf u) (ns.indexOf v)
        hlt hlv q r hqr t ht
    refine ⟨?_, ?_, ?_, ?_, ?_, ?_⟩
    · refine (hchar u v (Or.inl ⟨hgu.symm, hgv.symm⟩) directedName (by simp)).mpr ?_
      exact ⟨(u, v, directedName), by rw [hins]; simp, rfl, Or.inl ⟨rfl, rfl⟩⟩
    · cases hb : hasEdgeB (decodeFold arr ns arr.rows mkEmptyVariant) v u directedName with
      | false => rfl
      | true =>
        obtain ⟨e, he, hh⟩ :=
          (hchar v u (Or.inr ⟨hgv.symm, hgu.symm⟩) directedName (by simp)).mp hb
        rw [hins] at he
        simp at he
        subst he
        simp [insHitsP, directedName, circleName, huv, hvu] at hh
    · cases hb : hasEdgeB (decodeFold arr ns arr.rows mkEmptyVariant) u v bidirectedName with
      | false => rfl
      | true =>
        obtain ⟨e, he, hh⟩ :=
          (hchar u v (Or.inl ⟨hgu.symm, hgv.symm⟩) bidirectedName (by simp)).mp hb
        rw [hins] at he
        simp at he
        subst he
        simp [insHitsP, directedName, bidirectedName, circleName, huv, hvu] at hh
    · cases hb : hasEdgeB (decodeFold arr ns arr.rows mkEmptyVariant) u v undirectedName with
      | false => rfl
      | true =>
        obtain ⟨e, he, hh⟩ :=
          (hchar u v (Or.inl ⟨hgu.symm, hgv.symm⟩) undirectedName (by simp)).mp hb
        rw [hins] at he
        simp at he
        subst he
        simp [insHitsP, directedName, undirectedName, circleName, huv, hvu] at hh
    · cases hb : hasEdgeB (decodeFold arr ns arr.rows mkEmptyVariant) u v circleName with
      | false => rfl
      | true =>
        obtain ⟨e, he, hh⟩ :=
          (hchar u v (Or.inl ⟨hgu.symm, hgv.symm⟩) circleName (by simp)).mp hb
        rw [hins] at he
        simp at he
        subst he
        simp [insHitsP, directedName, circleName, huv, hvu] at hh
    · cases hb : hasEdgeB (decodeFold arr ns arr.rows mkEmptyVariant) v u circleName with
      | false => rfl
      | true =>
        obtain ⟨e, he, hh⟩ :=
          (hchar v u (Or.inr ⟨hgv.symm, hgu.symm⟩) circleName (by simp)).mp hb
        rw [hins] at he
        simp at he
        subst he
        simp [insHitsP, directedName, circleName, huv, hvu] at hh
  · have hlt : ns.indexOf v < ns.indexOf u := by omega
    have hins : pairIns arr ns (ns.indexOf v, ns.indexOf u) = [(u, v, directedName)] := by
      unfold pairIns
      rw [hE2, hE1, hgv, hgu]
      rfl
    have hchar := fun (q r : Nat) hqr t ht =>
      decoded_hasEdge_char arr ns arr.rows hn hnd (ns.indexOf v) (ns.indexOf u)
        hlt hlu q r hqr t ht
    refine ⟨?_, ?_, ?_, ?_, ?_, ?_⟩
    · refine (hchar u v (Or.inr ⟨hgu.symm, hgv.symm⟩) directedName (by simp)).mpr ?_
      exact ⟨(u, v, directedName), by rw [hins]; simp, rfl, Or.inl ⟨rfl, rfl⟩⟩
    · cases hb : hasEdgeB (decodeFold arr ns arr.rows mkEmptyVariant) v u directedName with
      | false => rfl
      | true =>
        obtain ⟨e, he, hh⟩ :=
          (hchar v u (Or.inl ⟨hgv.symm, hgu.symm⟩) directedName (by simp)).mp hb
        rw [hins] at he
        simp at he
        subst he
        simp [insHitsP, directedName, circleName, huv, hvu] at hh
    · cases hb : hasEdgeB (decodeFold arr ns arr.rows mkEmptyVariant) u v bidirectedName with
      | false => rfl
      | true =>
        obtain ⟨e, he, hh⟩ :=
          (hchar u v (Or.inr ⟨hgu.symm, hgv.symm⟩) bidirectedName (by simp)).mp hb
        rw [hins] at he
        simp at he
        subst he
        simp [insHitsP, directedName, bidirectedName, circleName, huv, hvu] at hh
    · cases hb : hasEdgeB (decodeFold arr ns arr.rows mkEmptyVariant) u v undirectedName with
      | false => rfl
      | true =>
        obtain ⟨e, he, hh⟩ :=
          (hchar u v (Or.inr ⟨hgu.symm, hgv.symm⟩) undirectedName (by simp)).mp hb
        rw [hins] at he
        simp at he
        subst he
        simp [insHitsP, directedName, undirectedName, circleName, huv, hvu] at hh
    · cases hb : hasEdgeB (decodeFold arr ns arr.rows mkEmptyVariant) u v circleName with
      | false => rfl
      | true =>
        obtain ⟨e, he, hh⟩ :=
          (hchar u v (Or.inr ⟨hgu.symm, hgv.symm⟩) circleName (by simp)).mp hb
        rw [hins] at he
        simp at he
        subst he
        simp [insHitsP, directedName, circleName, huv, hvu] at hh
    · cases hb : hasEdgeB (decodeFold arr ns arr.rows mkEmptyVariant) v u circleName with
      | false => rfl
      | true =>
        obtain ⟨e, he, hh⟩ :=
          (hchar v u (Or.inl ⟨hgv.symm, hgu.symm⟩) circleName (by simp)).mp hb
        rw [hins] at he
        simp at he
        subst he
        simp [insHitsP, directedName, circleName, huv, hvu] at hh

/-- Witness for the amended claim C1 at the concrete graph with the single
directed edge from 0 to 1. -/
theorem claim_C1_witness :
    (([0, 1] : List Nat).Nodup ∧ (0 : Nat) ∈ [0, 1] ∧ (1 : Nat) ∈ [0, 1] ∧ (0 : Nat) ≠ 1 ∧
      (0, 1) ∈ ([(0, 1)] : Edges) ∧ (1, 0) ∉ ([(0, 1)] : Edges) ∧
      graphToClearnArr (mkGraph [0, 1] [(0, 1)] [] [] []) =
        .ok (encArrOf cexDirGraph, encIdxOf cexDirGraph)) ∧
    ((encArrOf cexDirGraph).entry (([0, 1] : List Nat).indexOf 0)
        (([0, 1] : List Nat).indexOf 1) = CLearnEndpoint.tail.value ∧
      (encArrOf cexDirGraph).entry (([0, 1] : List Nat).indexOf 1)
        (([0, 1] : List Nat).indexOf 0) = CLearnEndpoint.arrow.value ∧
      ∃ H, clearnArrToGraph (encArrOf cexDirGraph) (encIdxOf cexDirGraph) "admg" = .ok H ∧
        hasEdgeB H 0 1 directedName = true ∧ hasEdgeB H 1 0 directedName = false ∧
        hasEdgeB H 0 1 bidirectedName = false ∧ hasEdgeB H 0 1 undirectedName = false ∧
        hasEdgeB H 0 1 circleName = false ∧ hasEdgeB H 1 0 circleName = false) :=
  ⟨⟨by decide, by decide, by decide, by decide, by decide, by decide, rfl⟩,
   claim_C1_amended [0, 1] [(0, 1)] [] [] [] 0 1 (by decide) (by decide) (by decide)
     (by decide) (by decide) (by decide) (by decide) (by decide) (by decide) (by decide)
     (by decide) (by decide) (encArrOf cexDirGraph) (encIdxOf cexDirGraph) rfl⟩

/-! ### Claim C2: the round trip -/

/-- Counterexample to claim C2 as stated: the partial-ancestral graph with
the single edge `0 o-> 1` (two edge types between the pair: directed plus
circle) encodes successfully, but decoding the result with the matching
`pag` variant loses the directed edge (both endpoints were encoded as
circles), so the decoded graph is not edge-isomorphic to the original. -/
theorem claim_C2_counterexample :
    hasEdgeB cexPagGraph 0 1 directedName = true ∧
    graphToClearnArr cexPagGraph = .ok (encArrOf cexPagGraph, encIdxOf cexPagGraph) ∧
    ∃ H, clearnArrToGraph (encArrOf cexPagGraph) (encIdxOf cexPagGraph) "pag" = .ok H ∧
      hasEdgeB H 0 1 directedName = false ∧ ¬ edgeEquiv cexPagGraph H :=
  ⟨by decide, rfl,
   decodeFold (encArrOf cexPagGraph) (encIdxOf cexPagGraph) (encArrOf cexPagGraph).rows
     mkEmptyVariant,
   rfl, by decide, by unfold edgeEquiv; decide⟩

theorem mkGraph_nodes (ns : List Nat) (d b un c : Edges) :
    (mkGraph ns d b un c).nodes = ns := rfl

theorem goodEdges_self (ns : List Nat) (es : Edges) (h : goodEdges ns es) (z : Nat) :
    (z, z) ∉ es :=
  fun hmem => (h _ hmem).2.2 rfl

theorem hasEdgeB_mk_self_false (ns : List Nat) (d b un c : Edges) (z : Nat)
    (hgd : goodEdges ns d) (hgb : goodEdges ns b) (hgun : goodEdges ns un)
    (hgc : goodEdges ns c) (t : String)
    (ht : t ∈ [directedName, bidirectedName, undirectedName, circleName]) :
    hasEdgeB (mkGraph ns d b un c) z z t = false := by
  simp only [List.mem_cons, List.not_mem_nil, or_false] at ht
  rcases ht with rfl | rfl | rfl | rfl
  · rw [hasEdgeB_mk_directed]
    simp [goodEdges_self ns d hgd z]
  · rw [hasEdgeB_mk_bidirected]
    simp [goodEdges_self ns b hgb z]
  · rw [hasEdgeB_mk_undirected]
    simp [goodEdges_self ns un hgun z]
  · rw [hasEdgeB_mk_circle]
    simp [goodEdges_self ns c hgc z]

/-- Claim C2 (amended): for every well-formed graph with no duplicate nodes,
whose every node pair carries one of the representable configurations (at
most two edge types per pair, excluding directed two-cycles, lone one-sided
circle marks, and circle-opposite-arrowhead pairs, which the array format
cannot carry faithfully), and whose every node is incident to at least one
edge, decoding the encoder's output with the all-edge-type `pag` variant
produces a graph edge-equivalent to the original: the same node set and the
same typed-edge presence answers for every node pair. -/
theorem claim_C2_amended (ns : List Nat) (d b un c : Edges)
    (hnd : ns.Nodup)
    (hgd : goodEdges ns d) (hgb : goodEdges ns b) (hgun : goodEdges ns un)
    (hgc : goodEdges ns c)
    (hcfg : ∀ u ∈ ns, ∀ v ∈ ns, u ≠ v → pairRepresentable d b un c u v)
    (hcov : ∀ x ∈ ns, ∃ y ∈ ns, x ≠ y ∧
      ((x, y) ∈ d ∨ (y, x) ∈ d ∨ (x, y) ∈ b ∨ (y, x) ∈ b ∨
        (x, y) ∈ un ∨ (y, x) ∈ un ∨ (x, y) ∈ c ∨ (y, x) ∈ c)) :
    ∃ arr, graphToClearnArr (mkGraph ns d b un c) = .ok (arr, ns) ∧
      ∃ H, clearnArrToGraph arr ns "pag" = .ok H ∧
        edgeEquiv (mkGraph ns d b un c) H := by
  obtain ⟨arr, hfold⟩ := foldlM_ok_of_stepOk (mkGraph ns d b un c) ns (orderedPairs ns)
    (by
      intro p hp
      obtain ⟨hx, hy⟩ := (mem_orderedPairs ns p.1 p.2).mp hp
      by_cases hq : p.1 = p.2
      · exact Or.inl hq
      · rcases pairRep_main ns d b un c p.1 p.2 hq (hcfg p.1 hx p.2 hy hq) with
          ⟨hn1, -, -⟩ | ⟨a1, a2, hf1, -, -, -, -⟩
        · exact Or.inr (Or.inl hn1)
        · exact Or.inr (Or.inr ⟨(a1, a2), hf1⟩))
    (CArr.zeros ns.length)
  have henc : graphToClearnArr (mkGraph ns d b un c) = .ok (arr, ns) := by
    unfold graphToClearnArr
    rw [show (mkGraph ns d b un c).nodes = ns from rfl, hfold]
    rfl
  obtain ⟨hrows, hcols, -⟩ := encode_shape (mkGraph ns d b un c) arr ns henc
  rw [mkGraph_nodes] at hrows hcols
  have hvalid := entriesValid_of_encode (mkGraph ns d b un c) arr ns henc
  have hn : ns.length = arr.rows := hrows.symm
  have hdec := decode_ok_pag arr ns (hrows.trans hcols.symm) hrows.symm hvalid
  refine ⟨arr, henc, decodeFold arr ns arr.rows mkEmptyVariant, hdec, ?_⟩
  have hEdges : ∀ u ∈ ns, ∀ v ∈ ns,
      ∀ t ∈ [directedName, bidirectedName, undirectedName, circleName],
        hasEdgeB (mkGraph ns d b un c) u v t =
          hasEdgeB (decodeFold arr ns arr.rows mkEmptyVariant) u v t := by
    intro u hu v hv t ht
    by_cases huv : u = v
    · subst huv
      rw [decoded_self_false arr ns arr.rows hn hnd u t ht,
        hasEdgeB_mk_self_false ns d b un c u hgd hgb hgun hgc t ht]
    · have hiu : ns.indexOf u < ns.length := List.indexOf_lt_length.mpr hu
      have hiv : ns.indexOf v < ns.length := List.indexOf_lt_length.mpr hv
      have hne : ns.indexOf u ≠ ns.indexOf v :=
        fun h => huv ((List.indexOf_inj hu hv).mp h)
      have hgdu : ns.getD (ns.indexOf u) 0 = u := getD_indexOf ns u hu
      have hgdv : ns.getD (ns.indexOf v) 0 = v := getD_indexOf ns v hv
      rcases pairRep_main ns d b un c u v huv (hcfg u hu v hv huv) with
        ⟨hn1, hn2, hGfalse⟩ | ⟨a1, a2, hf1, hf2, hadj, hiff1, hiff2⟩
      · have hz1 : arr.entry (ns.indexOf u) (ns.indexOf v) = 0 :=
          encode_entry_zero (mkGraph ns d b un c) hnd u v hu hv huv hn1 hn2 arr ns henc
        have hz2 : arr.entry (ns.indexOf v) (ns.indexOf u) = 0 :=
          encode_entry_zero (mkGraph ns d b un c) hnd v u hv hu (Ne.symm huv) hn2 hn1
            arr ns henc
        have hE1 : entryEndpoint arr (ns.indexOf u) (ns.indexOf v) = .null := by
          unfold entryEndpoint
          rw [hz1]
          rfl
        have hE2 : entryEndpoint arr (ns.indexOf v) (ns.indexOf u) = .null := by
          unfold entryEndpoint
          rw [hz2]
          rfl
        rw [hGfalse t ht]
        cases hb : hasEdgeB (decodeFold arr ns arr.rows mkEmptyVariant) u v t with
        | false => rfl
        | true =>
          exfalso
          rcases Nat.lt_or_ge (ns.indexOf u) (ns.indexOf v) with hlt | hge
          · obtain ⟨e, he, -⟩ := (decoded_hasEdge_char arr ns arr.rows hn hnd
              (ns.indexOf u) (ns.indexOf v) hlt (hn ▸ hiv) u v
              (Or.inl ⟨hgdu.symm, hgdv.symm⟩) t ht).mp hb
            have hins : pairIns arr ns (ns.indexOf u, ns.indexOf v) = [] := by
              unfold pairIns
              rw [hE1, hE2]
              rfl
            rw [hins] at he
            cases he
          · have hlt : ns.indexOf v < ns.indexOf u := by omega
            obtain ⟨e, he, -⟩ := (decoded_hasEdge_char arr ns arr.rows hn hnd
              (ns.indexOf v) (ns.indexOf u) hlt (hn ▸ hiu) u v
              (Or.inr ⟨hgdu.symm, hgdv.symm⟩) t ht).mp hb
            have hins : pairIns arr ns (ns.indexOf v, ns.indexOf u) = [] := by
              unfold pairIns
              rw [hE1, hE2]
              rfl
            rw [hins] at he
            cases he
      · have e1 : arr.entry (ns.indexOf u) (ns.indexOf v) = a1.value :=
          encode_entry (mkGraph ns d b un c) hnd u v hu hv huv a1 a2 hf1 hf2 hadj
            arr ns henc
        have e2 : arr.entry (ns.indexOf v) (ns.indexOf u) = a2.value :=
          encode_entry (mkGraph ns d b un c) hnd v u hv hu (Ne.symm huv) a2 a1 hf2 hf1
            hadj.symm arr ns henc
        have hE1 : entryEndpoint arr (ns.indexOf u) (ns.indexOf v) = a1 := by
          unfold entryEndpoint
          rw [e1, ofValue_value]
          rfl
        have hE2 : entryEndpoint arr (ns.indexOf v) (ns.indexOf u) = a2 := by
          unfold entryEndpoint
          rw [e2, ofValue_value]
          rfl
        rw [Bool.eq_iff_iff]
        rcases Nat.lt_or_ge (ns.indexOf u) (ns.indexOf v) with hlt | hge
        · rw [decoded_hasEdge_char arr ns arr.rows hn hnd
            (ns.indexOf u) (ns.indexOf v) hlt (hn ▸ hiv) u v
            (Or.inl ⟨hgdu.symm, hgdv.symm⟩) t ht]
          have hins : pairIns arr ns (ns.indexOf u, ns.indexOf v) =
              decodePair a1 a2 u v := by
            unfold pairIns
            rw [hE1, hE2, hgdu, hgdv]
          rw [hins]
          exact hiff1 t ht
        · have hlt : ns.indexOf v < ns.indexOf u := by omega
          rw [decoded_hasEdge_char arr ns arr.rows hn hnd
            (ns.indexOf v) (ns.indexOf u) hlt (hn ▸ hiu) u v
            (Or.inr ⟨hgdu.symm, hgdv.symm⟩) t ht]
          have hins : pairIns arr ns (ns.indexOf v, ns.indexOf u) =
              decodePair a2 a1 v u := by
            unfold pairIns
            rw [hE2, hE1, hgdv, hgdu]
          rw [hins]
          exact hiff2 t ht
  refine ⟨?_, ?_, hEdges⟩
  · intro x hx
    rw [mkGraph_nodes] at hx
    obtain ⟨y, hy, hxy, hadj8⟩ := hcov x hx
    have step : ∀ q r : Nat, q ∈ ns → r ∈ ns → (q = x ∨ r = x) →
        ∀ t ∈ [directedName, bidirectedName, undirectedName, circleName],
          hasEdgeB (mkGraph ns d b un c) q r t = true →
            x ∈ (decodeFold arr ns arr.rows mkEmptyVariant).nodes := by
      intro q r hq hr hqr t ht hG
      have hH : hasEdgeB (decodeFold arr ns arr.rows mkEmptyVariant) q r t = true := by
        rw [← hEdges q hq r hr t ht]
        exact hG
      obtain ⟨h1, h2⟩ := decoded_hasEdge_imp_nodes arr ns arr.rows q r t ht hH
      rcases hqr with rfl | rfl
      · exact h1
      · exact h2
    rcases hadj8 with h | h | h | h | h | h | h | h
    · exact step x y hx hy (Or.inl rfl) directedName (by simp)
        (by rw [hasEdgeB_mk_directed]; simp [h])
    · exact step y x hy hx (Or.inr rfl) directedName (by simp)
        (by rw [hasEdgeB_mk_directed]; simp [h])
    · exact step x y hx hy (Or.inl rfl) bidirectedName (by simp)
        (by rw [hasEdgeB_mk_bidirected]; simp [h])
    · exact step x y hx hy (Or.inl rfl) bidirectedName (by simp)
        (by rw [hasEdgeB_mk_bidirected]; simp [h])
    · exact step x y hx hy (Or.inl rfl) undirectedName (by simp)
        (by rw [hasEdgeB_mk_undirected]; simp [h])
    · exact step x y hx hy (Or.inl rfl) undirectedName (by simp)
        (by rw [hasEdgeB_mk_undirected]; simp [h])
    · exact step x y hx hy (Or.inl rfl) circleName (by simp)
        (by rw [hasEdgeB_mk_circle]; simp [h])
    · exact step y x hy hx (Or.inr rfl) circleName (by simp)
        (by rw [hasEdgeB_mk_circle]; simp [h])
  · intro x hx
    rw [mkGraph_nodes]
    exact decoded_nodes_sub arr ns arr.rows hn x hx

/-- Witness for the amended claim C2 at a concrete graph with three nodes, a
directed edge from 0 to 1 and an undirected edge between 1 and 2. -/
theorem claim_C2_witness :
    (([0, 1, 2] : List Nat).Nodup ∧
      goodEdges [0, 1, 2] [(0, 1)] ∧ goodEdges [0, 1, 2] [] ∧
      goodEdges [0, 1, 2] [(1, 2)] ∧ goodEdges [0, 1, 2] [] ∧
      (∀ u ∈ ([0, 1, 2] : List Nat), ∀ v ∈ ([0, 1, 2] : List Nat), u ≠ v →
        pairRepresentable [(0, 1)] [] [(1, 2)] [] u v) ∧
      (∀ x ∈ ([0, 1, 2] : List Nat), ∃ y ∈ ([0, 1, 2] : List Nat), x ≠ y ∧
        ((x, y) ∈ ([(0, 1)] : Edges) ∨ (y, x) ∈ ([(0, 1)] : Edges) ∨
          (x, y) ∈ ([] : Edges) ∨ (y, x) ∈ ([] : Edges) ∨
          (x, y) ∈ ([(1, 2)] : Edges) ∨ (y, x) ∈ ([(1, 2)] : Edges) ∨
          (x, y) ∈ ([] : Edges) ∨ (y, x) ∈ ([] : Edges)))) ∧
    ∃ arr, graphToClearnArr (mkGraph [0, 1, 2] [(0, 1)] [] [(1, 2)] []) =
        .ok (arr, [0, 1, 2]) ∧
      ∃ H, clearnArrToGraph arr [0, 1, 2] "pag" = .ok H ∧
        edgeEquiv (mkGraph [0, 1, 2] [(0, 1)] [] [(1, 2)] []) H :=
  ⟨⟨by decide, by decide, by decide, by decide, by decide, by decide, by decide⟩,
   claim_C2_amended [0, 1, 2] [(0, 1)] [] [(1, 2)] [] (by decide) (by decide) (by decide)
     (by decide) (by decide) (by decide) (by decide)⟩

/-! ### Claim C4: circle plus directed pairs -/

/-- Claim C4: for a pair carrying exactly a circle edge (circle mark at `u`)
and a directed edge whose arrowhead sits at the other node `v`, the encoder
assigns the circle code to the non-arrow end `u` and a circle-or-arrow code
to the arrow end `v`.  (Both orientations are covered because `u` and `v`
are universally quantified.) -/
theorem claim_C4 (ns : List Nat) (d b un c : Edges) (u v : Nat)
    (hd1 : (u, v) ∈ d) (hd2 : (v, u) ∉ d)
    (hb1 : (u, v) ∉ b) (hb2 : (v, u) ∉ b)
    (hu1 : (u, v) ∉ un) (hu2 : (v, u) ∉ un)
    (hc1 : (u, v) ∉ c) (hc2 : (v, u) ∈ c) :
    ∃ ev : CLearnEndpoint,
      endpointsFor (mkGraph ns d b un c) u v = .ok (.circle, ev) ∧
      (ev = .circle ∨ ev = .arrow) := by
  refine ⟨.circle, ?_, Or.inl rfl⟩
  simp [endpointsFor, edgeTypesFn, mkGraph, hasEdgeB,
    hd1, hd2, hb1, hb2, hu1, hu2, hc1, hc2,
    directedName, bidirectedName, undirectedName, circleName]

/-- Witness for C4: nodes 0 and 1, directed edge 0 to 1, circle mark at 0. -/
theorem claim_C4_witness :
    ((0, 1) ∈ ([(0, 1)] : Edges) ∧ (1, 0) ∉ ([(0, 1)] : Edges) ∧
      (0, 1) ∉ ([] : Edges) ∧ (1, 0) ∈ ([(1, 0)] : Edges)) ∧
    ∃ ev : CLearnEndpoint,
      endpointsFor (mkGraph [0, 1] [(0, 1)] [] [] [(1, 0)]) 0 1 = .ok (.circle, ev) ∧
      (ev = .circle ∨ ev = .arrow) :=
  ⟨⟨by decide, by decide, by decide, by decide⟩,
   claim_C4 [0, 1] [(0, 1)] [] [] [(1, 0)] 0 1 (by decide) (by decide) (by decide)
     (by decide) (by decide) (by decide) (by decide) (by decide)⟩

/-! ### Claim C5: compound-code pairs and their decoding -/

/-- Claim C5: for pairs carrying exactly directed+bidirected,
directed+undirected or bidirected+undirected edges, the encoder assigns the
compound codes of the table (oriented by the directed edge, `u` being the
source side here), and the decoder maps those compound codes back to exactly
the corresponding two typed edges, orienting the directed edge by which side
holds the arrow-bearing compound code. -/
theorem claim_C5 (ns : List Nat) (d b un c : Edges) (u v : Nat) :
    (((u, v) ∈ d ∧ (v, u) ∉ d ∧ ((u, v) ∈ b ∨ (v, u) ∈ b) ∧
        (u, v) ∉ un ∧ (v, u) ∉ un ∧ (u, v) ∉ c ∧ (v, u) ∉ c) →
      endpointsFor (mkGraph ns d b un c) u v = .ok (.tailAndArrow, .arrowAndArrow)) ∧
    (((u, v) ∈ d ∧ (v, u) ∉ d ∧ (u, v) ∉ b ∧ (v, u) ∉ b ∧
        ((u, v) ∈ un ∨ (v, u) ∈ un) ∧ (u, v) ∉ c ∧ (v, u) ∉ c) →
      endpointsFor (mkGraph ns d b un c) u v = .ok (.tailAndTail, .tailAndArrow)) ∧
    (((u, v) ∉ d ∧ (v, u) ∉ d ∧ ((u, v) ∈ b ∨ (v, u) ∈ b) ∧
        ((u, v) ∈ un ∨ (v, u) ∈ un) ∧ (u, v) ∉ c ∧ (v, u) ∉ c) →
      endpointsFor (mkGraph ns d b un c) u v = .ok (.tailAndArrow, .tailAndArrow)) ∧
    (decodePair .tailAndArrow .arrowAndArrow u v = [(u, v, directedName), (u, v, bidirectedName)]) ∧
    (decodePair .arrowAndArrow .tailAndArrow u v = [(v, u, directedName), (u, v, bidirectedName)]) ∧
    (decodePair .tailAndTail .tailAndArrow u v = [(u, v, directedName), (u, v, undirectedName)]) ∧
    (decodePair .tailAndArrow .tailAndTail u v = [(v, u, directedName), (u, v, undirectedName)]) ∧
    (decodePair .tailAndArrow .tailAndArrow u v = [(u, v, bidirectedName), (u, v, undirectedName)]) := by
  refine ⟨?_, ?_, ?_, rfl, rfl, rfl, rfl, rfl⟩
  · rintro ⟨hd1, hd2, hb, hu1, hu2, hc1, hc2⟩
    exact (cfg_dirbi_facts ns d b un c u v hd1 hd2 hb hu1 hu2 hc1 hc2).1
  · rintro ⟨hd1, hd2, hb1, hb2, hu, hc1, hc2⟩
    exact (cfg_dirun_facts ns d b un c u v hd1 hd2 hb1 hb2 hu hc1 hc2).1
  · rintro ⟨hd1, hd2, hb, hu, hc1, hc2⟩
    exact (cfg_biun_facts ns d b un c u v hd1 hd2 hb hu hc1 hc2).1

/-- Witness for C5: applies the theorem at nodes 0, 1 with the
directed+bidirected configuration satisfied. -/
theorem claim_C5_witness :
    ((0, 1) ∈ ([(0, 1)] : Edges) ∧ (1, 0) ∉ ([(0, 1)] : Edges) ∧
      ((0, 1) ∈ ([(0, 1)] : Edges) ∨ (1, 0) ∈ ([(0, 1)] : Edges)) ∧
      (0, 1) ∉ ([] : Edges) ∧ (1, 0) ∉ ([] : Edges) ∧
      (0, 1) ∉ ([] : Edges) ∧ (1, 0) ∉ ([] : Edges)) ∧
    endpointsFor (mkGraph [0, 1] [(0, 1)] [(0, 1)] [] []) 0 1 =
      .ok (.tailAndArrow, .arrowAndArrow) :=
  ⟨⟨by decide, by decide, Or.inl (by decide), by decide, by decide, by decide, by decide⟩,
   (claim_C5 [0, 1] [(0, 1)] [(0, 1)] [] [] 0 1).1
     ⟨by decide, by decide, Or.inl (by decide), by decide, by decide, by decide, by decide⟩⟩

/-! ### Claim C6: unsupported edge sets make the encoder raise -/

theorem endpointsFor_error_of_three (G : MixedGraph) (x y : Nat)
    (h3 : 3 ≤ (edgeTypesFn G x y).length) :
    ∃ e, endpointsFor G x y = .error e := by
  have hno : ¬ ∃ ab, endpointsFor G x y = .ok ab := by
    rintro ⟨ab, hab⟩
    unfold endpointsFor at hab
    split at hab
    · rename_i et heq
      rw [heq] at h3
      simp at h3
    · by_cases hl : ((edgeTypesFn G x y).length == 2) = true
      · have hl2 : (edgeTypesFn G x y).length = 2 := by simpa using hl
        omega
      · rw [if_neg hl] at hab
        cases hab
  cases hh : endpointsFor G x y with
  | error e => exact ⟨e, rfl⟩
  | ok ab => exact absurd ⟨ab, hh⟩ hno

theorem endpointsFor_error_of_unrecognized (G : MixedGraph) (x y : Nat) (l : String)
    (hl : edgeTypesFn G x y = [l])
    (hnot : l ∉ [directedName, bidirectedName, undirectedName, circleName]) :
    ∃ e, endpointsFor G x y = .error e := by
  simp only [List.mem_cons, List.not_mem_nil, or_false, not_or] at hnot
  obtain ⟨n1, n2, n3, n4⟩ := hnot
  refine ⟨"Unrecognizd edge type " ++ l ++ ".", ?_⟩
  unfold endpointsFor
  rw [hl]
  simp [n1, n2, n3, n4]

/-- Claim C6: a graph with three or more coexisting edge types between some
pair, or with a pair whose single edge-type label is unrecognized, makes the
encoder raise an error instead of producing a matrix. -/
theorem claim_C6 (G : MixedGraph) (u v : Nat) (hu : u ∈ G.nodes) (hv : v ∈ G.nodes)
    (huv : u ≠ v)
    (h : 3 ≤ (edgeTypesFn G u v).length ∨
      ∃ l, edgeTypesFn G u v = [l] ∧
        l ∉ [directedName, bidirectedName, undirectedName, circleName]) :
    ∃ e, graphToClearnArr G = .error e := by
  have hne : edgeTypesFn G u v ≠ [] := by
    rcases h with h3 | ⟨l, hl, -⟩
    · intro hnil
      rw [hnil] at h3
      simp at h3
    · rw [hl]
      simp
  have herr : ∀ x y : Nat, edgeTypesFn G x y = edgeTypesFn G u v →
      ∃ e, endpointsFor G x y = .error e := by
    intro x y hxy
    rcases h with h3 | ⟨l, hl, hnot⟩
    · exact endpointsFor_error_of_three G x y (hxy ▸ h3)
    · exact endpointsFor_error_of_unrecognized G x y l (hxy ▸ hl) hnot
  obtain ⟨arrE, hfold⟩ : ∃ e,
      (orderedPairs G.nodes).foldlM (encodeStep G G.nodes) (CArr.zeros G.nodes.length) =
        .error e := by
    rcases neighborb_of_edgeTypesFn_ne_nil G u v hne with hn | hn
    · refine foldlM_error_of_stepFails G G.nodes _ (u, v)
        ((mem_orderedPairs G.nodes u v).mpr ⟨hu, hv⟩) ⟨huv, hn, herr u v rfl⟩ _
    · refine foldlM_error_of_stepFails G G.nodes _ (v, u)
        ((mem_orderedPairs G.nodes v u).mpr ⟨hv, hu⟩)
        ⟨(Ne.symm huv), hn, herr v u (edgeTypesFn_symm G v u)⟩ _
  refine ⟨arrE, ?_⟩
  unfold graphToClearnArr
  rw [hfold]
  rfl

/-- Witness for C6: a graph with directed, bidirected and undirected edges
all present between nodes 0 and 1. -/
theorem claim_C6_witness :
    (0 ∈ (mkGraph [0, 1] [(0, 1)] [(0, 1)] [(0, 1)] []).nodes ∧
      1 ∈ (mkGraph [0, 1] [(0, 1)] [(0, 1)] [(0, 1)] []).nodes ∧ (0 : Nat) ≠ 1 ∧
      3 ≤ (edgeTypesFn (mkGraph [0, 1] [(0, 1)] [(0, 1)] [(0, 1)] []) 0 1).length) ∧
    ∃ e, graphToClearnArr (mkGraph [0, 1] [(0, 1)] [(0, 1)] [(0, 1)] []) = .error e :=
  ⟨⟨by decide, by decide, by decide, by decide⟩,
   claim_C6 (mkGraph [0, 1] [(0, 1)] [(0, 1)] [(0, 1)] []) 0 1 (by decide) (by decide)
     (by decide) (Or.inl (by decide))⟩

/-! ### Claim C3: node-order reordering in `graph_to_arr` -/

theorem sorted_getD_lt (a : List Nat) (hsort : a.Pairwise (· < ·)) (i j : Nat)
    (hij : i < j) (hj : j < a.length) : a.getD i 0 < a.getD j 0 := by
  rw [List.getD_eq_getElem _ _ (Nat.lt_trans hij hj), List.getD_eq_getElem _ _ hj]
  exact List.pairwise_iff_getElem.mp hsort i j (Nat.lt_trans hij hj) hj hij

theorem sorted_getD_le (a : List Nat) (hsort : a.Pairwise (· < ·)) (i j : Nat)
    (hij : i ≤ j) (hj : j < a.length) : a.getD i 0 ≤ a.getD j 0 := by
  rcases Nat.lt_or_ge i j with h | h
  · exact Nat.le_of_lt (sorted_getD_lt a hsort i j h hj)
  · rw [Nat.le_antisymm hij h]

theorem ssLoop_spec (a : List Nat) (hsort : a.Pairwise (· < ·)) (v : Nat) :
    ∀ fuel lo hi, hi - lo ≤ fuel → hi ≤ a.length → lo ≤ hi →
      (∀ k, k < lo → a.getD k 0 < v) →
      (∀ k, hi ≤ k → k < a.length → v ≤ a.getD k 0) →
      lo ≤ ssLoop a v fuel lo hi ∧ ssLoop a v fuel lo hi ≤ hi ∧
        (∀ k, k < ssLoop a v fuel lo hi → a.getD k 0 < v) ∧
        (∀ k, ssLoop a v fuel lo hi ≤ k → k < a.length → v ≤ a.getD k 0) := by
  intro fuel
  induction fuel with
  | zero =>
    intro lo hi hfuel hhi hlohi hlow hhigh
    have heq : lo = hi := by omega
    subst heq
    simp only [ssLoop]
    exact ⟨Nat.le_refl _, Nat.le_refl _, hlow, hhigh⟩
  | succ fuel ih =>
    intro lo hi hfuel hhi hlohi hlow hhigh
    simp only [ssLoop]
    by_cases hlt : lo < hi
    · rw [if_pos hlt]
      by_cases hcmp : a.getD ((lo + hi) / 2) 0 < v
      · rw [if_pos hcmp]
        have hlow' : ∀ k, k < (lo + hi) / 2 + 1 → a.getD k 0 < v := fun k hk =>
          Nat.lt_of_le_of_lt
            (sorted_getD_le a hsort k ((lo + hi) / 2) (by omega) (by omega)) hcmp
        obtain ⟨h1, h2, h3, h4⟩ :=
          ih ((lo + hi) / 2 + 1) hi (by omega) hhi (by omega) hlow' hhigh
        exact ⟨by omega, h2, h3, h4⟩
      · rw [if_neg hcmp]
        have hhigh' : ∀ k, (lo + hi) / 2 ≤ k → k < a.length → v ≤ a.getD k 0 :=
          fun k hk1 hk2 =>
            Nat.le_trans (Nat.le_of_not_lt hcmp)
              (sorted_getD_le a hsort ((lo + hi) / 2) k hk1 hk2)
        obtain ⟨h1, h2, h3, h4⟩ :=
          ih lo ((lo + hi) / 2) (by omega) (by omega) (by omega) hlow hhigh'
        exact ⟨h1, by omega, h3, h4⟩
    · rw [if_neg hlt]
      exact ⟨Nat.le_refl _, hlohi, hlow, fun k hk1 hk2 => hhigh k (by omega) hk2⟩

theorem searchsorted_indexOf (a : List Nat) (hsort : a.Pairwise (· < ·)) (v : Nat)
    (hv : v ∈ a) : searchsorted a v = a.indexOf v := by
  have hiv : a.indexOf v < a.length := List.indexOf_lt_length.mpr hv
  have hgv : a.getD (a.indexOf v) 0 = v := getD_indexOf a v hv
  obtain ⟨h1, h2, h3, h4⟩ := ssLoop_spec a hsort v (a.length + 1) 0 a.length
    (by omega) (Nat.le_refl _) (Nat.zero_le _)
    (fun k hk => absurd hk (Nat.not_lt_zero k))
    (fun k hk1 hk2 => absurd hk2 (Nat.not_lt.mpr hk1))
  unfold searchsorted
  by_cases hlt : ssLoop a v (a.length + 1) 0 a.length < a.indexOf v
  · have hr : ssLoop a v (a.length + 1) 0 a.length < a.length := Nat.lt_trans hlt hiv
    have hv1 := h4 _ (Nat.le_refl _) hr
    have hv2 := sorted_getD_lt a hsort _ _ hlt hiv
    rw [hgv] at hv2
    omega
  · by_cases hgt : a.indexOf v < ssLoop a v (a.length + 1) 0 a.length
    · have hv3 := h3 _ hgt
      rw [hgv] at hv3
      omega
    · omega

theorem getD_map_lt (l : List Nat) (g : Nat → Nat) (i dflt : Nat) (hi : i < l.length) :
    (l.map g).getD i dflt = g (l.getD i 0) := by
  rw [List.getD_eq_getElem _ _ (by simpa using hi), List.getElem_map,
    List.getD_eq_getElem _ _ hi]

theorem graphToArr_some (G : MixedGraph) (no : List Nat) (arr : CArr) (idx : List Nat)
    (henc : graphToClearnArr G = .ok (arr, idx)) :
    graphToArr G "causal-learn" (some no) =
      (if (idx.map (fun x => searchsorted no x)).all (fun k => k < arr.rows) then
        .ok (⟨arr.rows, arr.cols, fun i j =>
              arr.entry ((idx.map (fun x => searchsorted no x)).getD i arr.rows)
                ((idx.map (fun x => searchsorted no x)).getD j arr.cols)⟩,
             (idx.map (fun x => searchsorted no x)).map (fun k => idx.getD k 0))
      else .error "IndexError: index out of bounds") := by
  unfold graphToArr
  rw [henc]
  rfl

/-- Claim C3 is false as stated: on the graph with node list `[3, 1, 2]` and a
directed edge from 3 to 1, reordering with the node order `[1, 2, 3]` (a
permutation of the nodes) returns the index list `[2, 3, 1]`, not the
requested node order: `np.searchsorted` sends each original index to its rank
in the requested order, and the source then uses those ranks as positions
into the original index list, composing the permutation the wrong way
around. -/
theorem claim_C3_counterexample :
    List.Perm [1, 2, 3] cexOrderGraph.nodes ∧
    arrIdxOf (graphToArr cexOrderGraph "causal-learn" (some [1, 2, 3])) =
      .ok [2, 3, 1] ∧
    ([2, 3, 1] : List Nat) ≠ [1, 2, 3] :=
  ⟨by decide, rfl, by decide⟩

/-- Claim C3 (amended): for every graph whose encoding succeeds with
duplicate-free index list `ns`, and every strictly sorted node order that is
a permutation of `ns`, `graph_to_arr` succeeds and returns an index list that
is a permutation of the nodes (though not the requested order in general)
together with a matrix whose entry `(i, j)` equals the original encoding's
entry for the node pair named by positions `i` and `j` of the returned index
list, so each entry still encodes the endpoint for the node pair the
returned list designates. -/
theorem claim_C3_amended (ns : List Nat) (d b un c : Edges) (no : List Nat) (arr : CArr)
    (hnd : ns.Nodup) (hsort : no.Pairwise (· < ·))
    (hmem1 : ∀ x ∈ no, x ∈ ns) (hmem2 : ∀ x ∈ ns, x ∈ no)
    (henc : graphToClearnArr (mkGraph ns d b un c) = .ok (arr, ns)) :
    ∃ arr2 idx2,
      graphToArr (mkGraph ns d b un c) "causal-learn" (some no) = .ok (arr2, idx2) ∧
      idx2.length = ns.length ∧
      (∀ x, x ∈ idx2 ↔ x ∈ ns) ∧
      ∀ i j, i < ns.length → j < ns.length →
        arr2.entry i j =
          arr.entry (ns.indexOf (idx2.getD i 0)) (ns.indexOf (idx2.getD j 0)) := by
  obtain ⟨hrows, hcols, -⟩ := encode_shape _ arr ns henc
  rw [mkGraph_nodes] at hrows hcols
  have hnodno : no.Nodup := hsort.imp (fun h => Nat.ne_of_lt h)
  have hlen : no.length = ns.length :=
    ((List.perm_ext_iff_of_nodup hnodno hnd).mpr
      (fun x => ⟨fun h => hmem1 x h, fun h => hmem2 x h⟩)).length_eq
  have hss : ∀ z ∈ ns, searchsorted no z = no.indexOf z := fun z hz =>
    searchsorted_indexOf no hsort z (hmem2 z hz)
  have hssLt : ∀ z ∈ ns, searchsorted no z < ns.length := by
    intro z hz
    rw [hss z hz, ← hlen]
    exact List.indexOf_lt_length.mpr (hmem2 z hz)
  have hall : ((ns.map (fun x => searchsorted no x)).all (fun k => k < arr.rows)) = true := by
    rw [List.all_eq_true]
    intro k hk
    rw [List.mem_map] at hk
    obtain ⟨z, hz, rfl⟩ := hk
    simpa [hrows] using hssLt z hz
  rw [graphToArr_some _ no arr ns henc, if_pos hall]
  refine ⟨_, _, rfl, ?_, ?_, ?_⟩
  · simp
  · intro x
    constructor
    · intro hx
      rw [List.mem_map] at hx
      obtain ⟨k, hk, rfl⟩ := hx
      rw [List.mem_map] at hk
      obtain ⟨z, hz, rfl⟩ := hk
      exact getD_mem ns _ (hssLt z hz)
    · intro hx
      have hix : ns.indexOf x < no.length := by
        rw [hlen]
        exact List.indexOf_lt_length.mpr hx
      have hzno : no.getD (ns.indexOf x) 0 ∈ no := getD_mem no _ hix
      rw [List.mem_map]
      refine ⟨searchsorted no (no.getD (ns.indexOf x) 0), ?_, ?_⟩
      · rw [List.mem_map]
        exact ⟨no.getD (ns.indexOf x) 0, hmem1 _ hzno, rfl⟩
      · rw [searchsorted_indexOf no hsort _ hzno,
          indexOf_getD no hnodno _ hix, getD_indexOf ns x hx]
  · intro i j hi hj
    have hidx : ∀ k dflt, k < ns.length →
        (((ns.map (fun x => searchsorted no x)).map (fun t => ns.getD t 0)).getD k dflt) =
          ns.getD (searchsorted no (ns.getD k 0)) 0 := by
      intro k dflt hk
      rw [getD_map_lt _ _ k dflt (by simpa using hk), getD_map_lt ns _ k 0 hk]
    have e1 : ns.indexOf
          ((((ns.map (fun x => searchsorted no x)).map (fun t => ns.getD t 0))).getD i 0) =
        (ns.map (fun x => searchsorted no x)).getD i arr.rows := by
      rw [hidx i 0 hi, getD_map_lt ns _ i arr.rows hi]
      exact indexOf_getD ns hnd _ (hssLt _ (getD_mem ns i hi))
    have e2 : ns.indexOf
          ((((ns.map (fun x => searchsorted no x)).map (fun t => ns.getD t 0))).getD j 0) =
        (ns.map (fun x => searchsorted no x)).getD j arr.cols := by
      rw [hidx j 0 hj, getD_map_lt ns _ j arr.cols hj]
      exact indexOf_getD ns hnd _ (hssLt _ (getD_mem ns j hj))
    rw [e1, e2]

/-- Witness for C3: the graph with nodes `[3, 1, 2]` and one directed edge
from 3 to 1, reordered by the sorted node order `[1, 2, 3]`. -/
theorem claim_C3_witness :
    (([3, 1, 2] : List Nat).Nodup ∧
      ([1, 2, 3] : List Nat).Pairwise (· < ·) ∧
      (∀ x ∈ ([1, 2, 3] : List Nat), x ∈ ([3, 1, 2] : List Nat)) ∧
      (∀ x ∈ ([3, 1, 2] : List Nat), x ∈ ([1, 2, 3] : List Nat)) ∧
      graphToClearnArr (mkGraph [3, 1, 2] [(3, 1)] [] [] []) =
        .ok (encArrOf (mkGraph [3, 1, 2] [(3, 1)] [] [] []), [3, 1, 2])) ∧
    ∃ arr2 idx2,
      graphToArr (mkGraph [3, 1, 2] [(3, 1)] [] [] []) "causal-learn" (some [1, 2, 3]) =
        .ok (arr2, idx2) ∧
      idx2.length = ([3, 1, 2] : List Nat).length ∧
      (∀ x, x ∈ idx2 ↔ x ∈ ([3, 1, 2] : List Nat)) ∧
      ∀ i j, i < ([3, 1, 2] : List Nat).length → j < ([3, 1, 2] : List Nat).length →
        arr2.entry i j =
          (encArrOf (mkGraph [3, 1, 2] [(3, 1)] [] [] [])).entry
            (([3, 1, 2] : List Nat).indexOf (idx2.getD i 0))
            (([3, 1, 2] : List Nat).indexOf (idx2.getD j 0)) :=
  ⟨⟨by decide, by decide, by decide, by decide, rfl⟩,
   claim_C3_amended [3, 1, 2] [(3, 1)] [] [] [] [1, 2, 3]
     (encArrOf (mkGraph [3, 1, 2] [(3, 1)] [] [] []))
     (by decide) (by decide) (by decide) (by decide) rfl⟩

/-- Witness for C9 at the matrix `arrCircNull`. -/
theorem claim_C9_witness :
    (arrCircNull.rows = arrCircNull.cols ∧ ([0, 1] : List Nat).length = arrCircNull.rows ∧
      entriesValid arrCircNull = true) ∧
    decodePair .circle .null 0 1 = [(1, 0, circleName)] ∧
    decodePair .null .circle 0 1 = [(0, 1, circleName)] ∧
    ∃ H, clearnArrToGraph arrCircNull [0, 1] "pag" = .ok H :=
  ⟨⟨rfl, rfl, by decide⟩, claim_C9 0 1 arrCircNull [0, 1] rfl rfl (by decide)⟩

end PywhyGraphs
